import Mathlib

/-!
Verification of the topology-discovery and flow-synthesis core of the mntpp
repository (`backend/topology_graph.py` and `backend/path_to_flow.py`).

The Python code is shallowly embedded: string handling is done on explicit
character lists (modelling Python `str` operations and the two regular
expressions used by the parser), the `networkx` undirected graph is modelled
as association lists of nodes and edges carrying heterogeneous attribute
dictionaries, and the stateful classes become explicit state records.
-/

namespace Mntpp

/-! ## Python string primitives on character lists -/

/-- Characters matched by the regex class `\w` in the ASCII range
(letters, digits, underscore); node names in `net` output are ASCII. -/
def isWordChar (c : Char) : Bool := c.isAlphanum || c == '_'

/-- Drop leading whitespace. -/
def dropLeadingWs : List Char → List Char
  | [] => []
  | c :: cs => if c.isWhitespace then dropLeadingWs cs else c :: cs

/-- Python `str.strip()`: remove leading and trailing whitespace. -/
def trimChars (cs : List Char) : List Char :=
  ((dropLeadingWs ((dropLeadingWs cs.reverse)).reverse))

/-- Python `str.strip()` on a `String`. -/
def pyStrip (s : String) : String := String.mk (trimChars s.data)

/-- Split a character list on a separator character, keeping empty pieces
(Python `str.split('\n')`). -/
def splitOnCharAux (sep : Char) : List Char → List Char → List (List Char)
  | [], acc => [acc.reverse]
  | c :: cs, acc =>
    if c == sep then acc.reverse :: splitOnCharAux sep cs []
    else splitOnCharAux sep cs (c :: acc)

def splitOnChar (sep : Char) (cs : List Char) : List (List Char) :=
  splitOnCharAux sep cs []

/-- Python `net_output.strip().split('\n')`. -/
def pyLines (s : String) : List String :=
  (splitOnChar '\x0a' (trimChars s.data)).map String.mk

/-- Split on runs of whitespace, dropping empty pieces (Python `str.split()`
with no argument). -/
def wordsAux : List Char → List Char → List (List Char)
  | [], acc => if acc = [] then [] else [acc.reverse]
  | c :: cs, acc =>
    if c.isWhitespace then
      if acc = [] then wordsAux cs [] else acc.reverse :: wordsAux cs []
    else wordsAux cs (c :: acc)

def pyWords (s : String) : List String := (wordsAux s.data []).map String.mk

/-- Python `a.startswith(b)`. -/
def startsWithChars : List Char → List Char → Bool
  | _, [] => true
  | [], _ :: _ => false
  | a :: as, b :: bs => a == b && startsWithChars as bs

def pyStartsWith (s pre : String) : Bool := startsWithChars s.data pre.data

/-- Python substring containment `b in a` for the fixed needle `eth`. -/
def containsEthChars : List Char → Bool
  | [] => false
  | c :: cs => startsWithChars (c :: cs) ['e', 't', 'h'] || containsEthChars cs

def containsEth (s : String) : Bool := containsEthChars s.data

def containsChar (c : Char) (s : String) : Bool := s.data.any (fun d => d == c)

/-- Python string `<`: lexicographic comparison by code point. -/
def strLtChars : List Char → List Char → Bool
  | [], [] => false
  | [], _ :: _ => true
  | _ :: _, [] => false
  | a :: as, b :: bs =>
    if a.toNat < b.toNat then true
    else if b.toNat < a.toNat then false
    else strLtChars as bs

def pyStrLt (a b : String) : Bool := strLtChars a.data b.data

/-- Python `int(...)` on a digit string. -/
def digitsToNat (ds : List Char) : Nat :=
  ds.foldl (fun n c => n * 10 + (c.toNat - 48)) 0

/-- Split a character list at its first occurrence of `sep`, or `none` when
the character is absent (Python `str.split(sep, 1)` with exactly one split). -/
def splitAtFirst (sep : Char) : List Char → Option (List Char × List Char)
  | [] => none
  | c :: cs =>
    if c == sep then some ([], cs)
    else
      match splitAtFirst sep cs with
      | some (pre, post) => some (c :: pre, post)
      | none => none

/-- The regex `^(\w+)-eth(\d+)$` from `_parse_net_output`.  `\w` cannot match
`'-'`, so a successful match splits the token at its first dash into a
nonempty all-`\w` name, the literal `eth`, and a nonempty digit string. -/
def matchEndpoint (s : String) : Option (String × Nat) :=
  match splitAtFirst '-' s.data with
  | none => none
  | some (name, rest) =>
    if name ≠ [] && name.all isWordChar then
      match rest with
      | 'e' :: 't' :: 'h' :: ds =>
        if ds ≠ [] && ds.all Char.isDigit then some (String.mk name, digitsToNat ds)
        else none
      | _ => none
    else none

/-! ## Parsed topology records (`_parse_net_output`) -/

/-- One parsed link record (`topology_info['links']` entry / `raw_links`). -/
structure Link where
  source : String
  target : String
  source_port : Nat
  target_port : Nat
deriving Repr, DecidableEq

structure SwitchRec where
  name : String
  dpid : String
deriving Repr, DecidableEq

structure HostRec where
  name : String
  ip : String
deriving Repr, DecidableEq

structure ParsedTopo where
  switches : List SwitchRec
  hosts : List HostRec
  links : List Link
deriving Repr, DecidableEq

/-- Python `set.add`: sets are modelled as duplicate-free lists in insertion
order (the parser sorts them before use, so iteration order is irrelevant). -/
def setAdd (l : List String) (x : String) : List String :=
  if x ∈ l then l else l ++ [x]

/-- Insertion sort by Python string `<` (models `sorted(...)`). -/
def insertSorted (x : String) : List String → List String
  | [] => [x]
  | y :: ys => if pyStrLt y x then y :: insertSorted x ys else x :: y :: ys

def sortStrings (l : List String) : List String := l.foldr insertSorted []

/-- `switch.replace('s', '')`: removes every `'s'` character. -/
def stripAllS (s : String) : String := String.mk (s.data.filter (fun c => !(c == 's')))

/-- `f'10.0.0.{host[1:]}/24'`. -/
def hostIp (h : String) : String := "10.0.0." ++ String.mk (h.data.drop 1) ++ "/24"

/-- Handling of one whitespace-separated token of a `net` line
(`_parse_net_output`, body of `for part in parts[1:]`): the token is used only
if it contains `':'` and the substring `eth`; it is split at its first colon,
both sides must match `^(\w+)-eth(\d+)$`, and the resulting link is stored
with the lexicographically smaller node id as `source` and the port numbers
carried to the matching endpoints. -/
def parseLinkToken (part : String) : Option Link :=
  if containsChar ':' part && containsEth part then
    match splitAtFirst ':' part.data with
    | some (localPort, remoteInfo) =>
      match matchEndpoint (String.mk localPort), matchEndpoint (String.mk remoteInfo) with
      | some (localNode, localPortNum), some (remoteNode, remotePortNum) =>
        if pyStrLt localNode remoteNode then
          some ⟨localNode, remoteNode, localPortNum, remotePortNum⟩
        else
          some ⟨remoteNode, localNode, remotePortNum, localPortNum⟩
      | _, _ => none
    | none => none
  else none

/-- One line of the `net` output (`_parse_net_output` loop body).  The
accumulator carries the switch-name set, the host-name set and the link list
in declaration order (before deduplication). -/
def parseLine (acc : List String × List String × List Link) (line : String) :
    List String × List String × List Link :=
  if pyStrip line = "" || pyStrip line = "mininet>" then acc
  else
    match pyWords (pyStrip line) with
    | [] => acc
    | [_] => acc
    | nodeName :: rest =>
      if nodeName = "mininet>" then acc
      else if pyStartsWith nodeName "s" then
        (setAdd acc.1 nodeName, acc.2.1, acc.2.2 ++ rest.filterMap parseLinkToken)
      else if pyStartsWith nodeName "h" then
        (acc.1, setAdd acc.2.1 nodeName, acc.2.2 ++ rest.filterMap parseLinkToken)
      else
        (acc.1, acc.2.1, acc.2.2 ++ rest.filterMap parseLinkToken)

/-- The switch/host/link accumulation pass of `_parse_net_output`
before link deduplication. -/
def parseAccumulate (netOutput : String) : List String × List String × List Link :=
  (pyLines netOutput).foldl parseLine ([], [], [])

/-- Link deduplication by the ordered `(source, target)` key, first record
kept (`seen_links` loop of `_parse_net_output`). -/
def dedupLinks : List Link → List (String × String) → List Link
  | [], _ => []
  | l :: ls, seen =>
    if (l.source, l.target) ∈ seen then dedupLinks ls seen
    else l :: dedupLinks ls ((l.source, l.target) :: seen)

/-- `_parse_net_output`. -/
def parse_net_output (netOutput : String) : ParsedTopo :=
  let acc := parseAccumulate netOutput
  { switches := (sortStrings acc.1).map (fun s => ⟨s, stripAllS s⟩)
  , hosts := (sortStrings acc.2.1).map (fun h => ⟨h, hostIp h⟩)
  , links := dedupLinks acc.2.2 [] }

/-! ## The `networkx` undirected graph -/

/-- A heterogeneous attribute value (node/edge attribute dictionaries hold
both strings and integers). -/
inductive AttrVal where
  | nat (n : Nat)
  | str (s : String)
deriving Repr, DecidableEq

abbrev AttrDict := List (String × AttrVal)

/-- Python `dict.get(k)` (returning `None` when absent). -/
def dictGet? (d : AttrDict) (k : String) : Option AttrVal :=
  match d.find? (fun p => p.1 == k) with
  | some p => some p.2
  | none => none

/-- Python `dict.get(k, default)` for an integer-valued attribute. -/
def dictGetNat (d : AttrDict) (k : String) (dflt : Nat) : Nat :=
  match dictGet? d k with
  | some (.nat n) => n
  | _ => dflt

/-- Python `dict.get(k, default)` for a string-valued attribute. -/
def dictGetStr (d : AttrDict) (k : String) (dflt : String) : String :=
  match dictGet? d k with
  | some (.str s) => s
  | _ => dflt

/-- One undirected `networkx` edge with its attribute dictionary. -/
structure GEdge where
  u : String
  v : String
  attrs : AttrDict
deriving Repr, DecidableEq

/-- `networkx.Graph`: nodes in insertion order with attribute dictionaries,
edges in insertion order.  Undirectedness lives in the lookup functions. -/
structure TopoGraph where
  nodes : List (String × AttrDict)
  edges : List GEdge
deriving Repr, DecidableEq

def nodeKeys (g : TopoGraph) : List String := g.nodes.map Prod.fst

def nodeMemB (g : TopoGraph) (n : String) : Bool :=
  g.nodes.any (fun p => p.1 == n)

/-- `G.add_node(n, **attrs)` (fresh node appended; on a rebuilt-from-scratch
graph every `add_node` call targets a fresh name). -/
def add_node (g : TopoGraph) (n : String) (attrs : AttrDict) : TopoGraph :=
  if nodeMemB g n then
    { g with nodes := g.nodes.map (fun p => if p.1 == n then (p.1, attrs) else p) }
  else
    { g with nodes := g.nodes ++ [(n, attrs)] }

/-- `add_edge` implicitly adds missing endpoints with empty attribute
dictionaries. -/
def ensureNode (g : TopoGraph) (n : String) : TopoGraph :=
  if nodeMemB g n then g else { g with nodes := g.nodes ++ [(n, [])] }

def edgeMatches (e : GEdge) (a b : String) : Bool :=
  (e.u == a && e.v == b) || (e.u == b && e.v == a)

/-- `G[a][b]`: the attribute dictionary of the undirected edge between `a`
and `b` (direction-insensitive). -/
def edgeLookup (g : TopoGraph) (a b : String) : Option GEdge :=
  g.edges.find? (fun e => edgeMatches e a b)

/-- `G.has_edge(a, b)` (direction-insensitive for an undirected graph). -/
def hasEdgeB (g : TopoGraph) (a b : String) : Bool := (edgeLookup g a b).isSome

/-- `G.add_edge(a, b, **attrs)`. -/
def add_edge (g : TopoGraph) (a b : String) (attrs : AttrDict) : TopoGraph :=
  let g1 := ensureNode g a
  let g2 := ensureNode g1 b
  if hasEdgeB g2 a b then
    { g2 with edges := g2.edges.map (fun e => if edgeMatches e a b then { e with attrs := attrs } else e) }
  else
    { g2 with edges := g2.edges ++ [⟨a, b, attrs⟩] }

/-- Duplicate removal keeping first occurrences. -/
def dedupAux : List String → List String → List String
  | [], _ => []
  | x :: xs, seen =>
    if x ∈ seen then dedupAux xs seen else x :: dedupAux xs (x :: seen)

def dedupKeepFirst (l : List String) : List String := dedupAux l []

/-- `G.neighbors(n)`: each adjacent node once, in edge-insertion order. -/
def neighbors (g : TopoGraph) (n : String) : List String :=
  dedupKeepFirst (g.edges.filterMap (fun e =>
    if e.u == n then some e.v
    else if e.v == n then some e.u
    else none))

/-! ## `TopologyGraph` state and its methods -/

/-- `_build_complete_graph`: clear, add switch nodes, add host nodes, add
edges (each carrying `source_port` and `target_port` attributes). -/
def build_complete_graph (pt : ParsedTopo) : TopoGraph :=
  let g0 : TopoGraph := { nodes := [], edges := [] }
  let g1 := pt.switches.foldl
    (fun g sw => add_node g sw.name [("type", .str "switch"), ("dpid", .str sw.dpid)]) g0
  let g2 := pt.hosts.foldl
    (fun g h => add_node g h.name [("type", .str "host"), ("ip", .str h.ip)]) g1
  pt.links.foldl
    (fun g l => add_edge g l.source l.target
      [("source_port", .nat l.source_port), ("target_port", .nat l.target_port)]) g2

/-- The per-neighbor port choice of `_build_port_mapping`.  The source reads
`if node == edge_data.get('source')`, but `add_edge` stores only the
`source_port` and `target_port` attributes, so `get('source')` yields `None`;
a string node name compares equal only to an equal string value. -/
def portForNode (n : String) (attrs : AttrDict) : Nat :=
  match dictGet? attrs "source" with
  | some (.str s) =>
    if n == s then dictGetNat attrs "source_port" 1 else dictGetNat attrs "target_port" 1
  | _ => dictGetNat attrs "target_port" 1

/-- `_build_port_mapping`.  The inner lookup `self.graph[node][neighbor]`
always succeeds for a neighbor; the `none` arm is unreachable. -/
def build_port_mapping (g : TopoGraph) : List (String × List (String × Nat)) :=
  (nodeKeys g).map (fun n =>
    (n, (neighbors g n).map (fun m =>
      match edgeLookup g n m with
      | some e => (m, portForNode n e.attrs)
      | none => (m, 1))))

/-- The mutable `TopologyGraph` object state. -/
structure TopologyGraphState where
  graph : TopoGraph
  port_mapping : List (String × List (String × Nat))
  raw_links : List Link
deriving Repr, DecidableEq

/-- `TopologyGraph.__init__`. -/
def initTopologyGraph : TopologyGraphState :=
  { graph := { nodes := [], edges := [] }, port_mapping := [], raw_links := [] }

/-- One successful-capture iteration of `extract_topology_from_mininet`:
parse the dump; if it contains at least one switch, store the raw links and
rebuild the graph and port mapping (returning `True`), otherwise keep the
previous state (the method keeps polling and eventually returns `False`). -/
def extract_topology_attempt (st : TopologyGraphState) (netOutput : String) :
    Bool × TopologyGraphState :=
  let pt := parse_net_output netOutput
  if pt.switches ≠ [] then
    let g := build_complete_graph pt
    (true, { graph := g, port_mapping := build_port_mapping g, raw_links := pt.links })
  else
    (false, st)

/-- A node entry of `get_topology_data`. -/
structure TopoNodeView where
  id : String
  type : String
  ip : String
deriving Repr, DecidableEq

/-- An edge entry of `get_topology_data`. -/
structure TopoEdgeView where
  source : String
  target : String
  source_port : Nat
  target_port : Nat
deriving Repr, DecidableEq

/-- `get_topology_data` (node type defaults to `"unknown"`, ip to `""`,
ports to `1`). -/
def get_topology_data (st : TopologyGraphState) :
    List TopoNodeView × List TopoEdgeView × List (String × List (String × Nat)) :=
  ( st.graph.nodes.map (fun p => ⟨p.1, dictGetStr p.2 "type" "unknown", dictGetStr p.2 "ip" ""⟩)
  , st.graph.edges.map (fun e =>
      ⟨e.u, e.v, dictGetNat e.attrs "source_port" 1, dictGetNat e.attrs "target_port" 1⟩)
  , st.port_mapping )

/-! ### Shortest path (`find_path` / `nx.shortest_path` on an unweighted
undirected graph): breadth-first search.  Each queue entry is a simple path
stored in reverse (current node first, source last); a node is marked
visited when its path is enqueued. -/

/-- Enqueue every unvisited neighbor of `hd` (the head of path `p`). -/
def bfsExpand (g : TopoGraph) (hd : String) (p : List String) (visited : List String) :
    List (List String) × List String :=
  (neighbors g hd).foldl
    (fun acc m => if m ∈ acc.2 then acc else (acc.1 ++ [m :: p], m :: acc.2))
    ([], visited)

def bfsAux (g : TopoGraph) (dst : String) :
    Nat → List (List String) → List String → List String
  | 0, _, _ => []
  | _ + 1, [], _ => []
  | fuel + 1, p :: queue, visited =>
    match p with
    | [] => bfsAux g dst fuel queue visited
    | hd :: _ =>
      if hd = dst then p.reverse
      else
        let ex := bfsExpand g hd p visited
        bfsAux g dst fuel (queue ++ ex.1) ex.2

/-- `find_path(src, dst, algorithm)`: `[]` when an endpoint is absent; for
`'dijkstra'` an unweighted shortest path via `nx.shortest_path` (breadth-first
search; `[src]` when `src = dst`); `[]` for any other algorithm name.  The
fuel strictly exceeds the number of possible dequeues: every enqueue marks a
previously unvisited node, and every visited node is `src` or an edge
endpoint. -/
def find_path_alg (st : TopologyGraphState) (src dst : String) (algorithm : String) :
    List String :=
  if !(nodeMemB st.graph src) || !(nodeMemB st.graph dst) then []
  else if algorithm = "dijkstra" then
    bfsAux st.graph dst (st.graph.nodes.length + 2 * st.graph.edges.length + 2) [[src]] [src]
  else []

def find_path (st : TopologyGraphState) (src dst : String) : List String :=
  find_path_alg st src dst "dijkstra"

/-- `get_port_pair_from_raw_links` body: first matching raw record in either
orientation. -/
def rawPortScan : List Link → String → String → Option Nat × Option Nat
  | [], _, _ => (none, none)
  | l :: ls, n1, n2 =>
    if l.source == n1 && l.target == n2 then (some l.source_port, some l.target_port)
    else if l.source == n2 && l.target == n1 then (some l.target_port, some l.source_port)
    else rawPortScan ls n1 n2

/-- `get_port_pair_from_raw_links`: `(None, None)` when the raw list is empty
or no record matches either orientation. -/
def get_port_pair_from_raw_links (st : TopologyGraphState) (n1 n2 : String) :
    Option Nat × Option Nat :=
  if st.raw_links = [] then (none, none)
  else rawPortScan st.raw_links n1 n2

/-! ## `PathToFlow` state and its methods -/

/-- One flow rule dictionary produced by `create_flow_rules`.  The port
fields are `Option Nat` because the looked-up tuple components can be
`None`. -/
structure FlowRule where
  switch : String
  flow_id : String
  in_port : Option Nat
  out_port : Option Nat
  priority : Nat
  path : List String
  direction : String
deriving Repr, DecidableEq

/-- The mutable `PathToFlow` object state. -/
structure PathToFlowState where
  topology_graph : TopologyGraphState
  active_flows : List (String × List FlowRule)
deriving Repr, DecidableEq

/-- `_get_port_pair`: raw link records first (`if raw_ports and
raw_ports[0] is not None and raw_ports[1] is not None` — a two-element tuple
is always truthy, so only the component tests matter), then the graph edge's
stored attributes.  `G.has_edge` is direction-insensitive on an undirected
graph, so the `elif has_edge(node2, node1)` branch is unreachable; both
branches read the same undirected attribute dictionary `G[x][y]`. -/
def get_port_pair (tg : TopologyGraphState) (n1 n2 : String) : Option Nat × Option Nat :=
  let rawPorts := get_port_pair_from_raw_links tg n1 n2
  if rawPorts.1.isSome && rawPorts.2.isSome then rawPorts
  else if hasEdgeB tg.graph n1 n2 then
    match edgeLookup tg.graph n1 n2 with
    | some e => (some (dictGetNat e.attrs "source_port" 1), some (dictGetNat e.attrs "target_port" 1))
    | none => (none, none)
  else if hasEdgeB tg.graph n2 n1 then
    match edgeLookup tg.graph n2 n1 with
    | some e => (some (dictGetNat e.attrs "target_port" 1), some (dictGetNat e.attrs "source_port" 1))
    | none => (none, none)
  else (none, none)

/-- Python dict insertion `m[k] = v`: replace the binding if the key exists
(position preserved), otherwise append. -/
def assocSet {β : Type} (m : List (String × β)) (k : String) (v : β) : List (String × β) :=
  if m.any (fun p => p.1 == k) then m.map (fun p => if p.1 == k then (k, v) else p)
  else m ++ [(k, v)]

/-- Python `m[k]` / `k in m` combined lookup. -/
def assocFind? {β : Type} (m : List (String × β)) (k : String) : Option β :=
  match m.find? (fun p => p.1 == k) with
  | some p => some p.2
  | none => none

/-- Python `del m[k]` (dict keys are unique; removing every binding with the
key is equivalent). -/
def assocErase {β : Type} (m : List (String × β)) (k : String) : List (String × β) :=
  m.filter (fun p => !(p.1 == k))

/-- The interior-hop triples `(path[i-1], path[i], path[i+1])` for
`i = 1 .. len(path)-2`, as traversed by the `create_flow_rules` loop. -/
def pathTriples : List String → List (String × String × String)
  | a :: b :: c :: rest => (a, b, c) :: pathTriples (b :: c :: rest)
  | _ => []

/-- The `switch_port_map` building loop of `create_flow_rules`: hops whose
middle node does not carry the `'s'` prefix are skipped.  The source guard
`if h1_to_s1 is None or s1_to_h2 is None: continue` compares the looked-up
values against the bare `None`; `_get_port_pair` returns a two-element tuple
on every code path (possibly `(None, None)`), so that guard is never taken
and no hop is skipped on lookup failure.  `switch_in_port = h1_to_s1[1]`,
`switch_out_port = s1_to_h2[0]`. -/
def buildSwitchPortMap (tg : TopologyGraphState) :
    List (String × String × String) → List (String × (Option Nat × Option Nat)) →
    List (String × (Option Nat × Option Nat))
  | [], m => m
  | (prev, sw, nxt) :: rest, m =>
    if pyStartsWith sw "s" then
      let h1ToS1 := get_port_pair tg prev sw
      let s1ToH2 := get_port_pair tg sw nxt
      buildSwitchPortMap tg rest (assocSet m sw (h1ToS1.2, s1ToH2.1))
    else
      buildSwitchPortMap tg rest m

/-- The forward rule emitted for one resolved switch. -/
def mkFwdRule (flowId : String) (priority : Nat) (path : List String)
    (sw : String) (ports : Option Nat × Option Nat) : FlowRule :=
  ⟨sw, flowId ++ "_forward", ports.1, ports.2, priority, path, "forward"⟩

/-- The reverse rule emitted for one resolved switch. -/
def mkRevRule (flowId : String) (priority : Nat) (path : List String)
    (sw : String) (ports : Option Nat × Option Nat) : FlowRule :=
  ⟨sw, flowId ++ "_reverse", ports.2, ports.1, priority, path.reverse, "reverse"⟩

/-- `create_flow_rules(path, flow_id, priority)`: returns the produced rule
list and the updated object state (`self.active_flows[flow_id] = flow_rules`).
Returns `[]` without registering anything when the path has fewer than two
nodes (`if not path or len(path) < 2`). -/
def create_flow_rules (st : PathToFlowState) (path : List String)
    (flowId? : Option String) (priority : Nat) : List FlowRule × PathToFlowState :=
  if path.length < 2 then ([], st)
  else
    let flowId :=
      match flowId? with
      | some f => f
      | none => "flow_" ++ path.headD "" ++ "_" ++ path.getLastD ""
    let spm := buildSwitchPortMap st.topology_graph (pathTriples path) []
    let flowRules := (spm.map (fun p =>
      [mkFwdRule flowId priority path p.1 p.2, mkRevRule flowId priority path p.1 p.2])).flatten
    (flowRules, { st with active_flows := assocSet st.active_flows flowId flowRules })

/-- Python `f'...{x}...'` prints the value `None` as the text `None`. -/
def pyShowOptNat : Option Nat → String
  | some n => toString n
  | none => "None"

/-- `delete_flow_rules(flow_id)`: a registry miss returns `[]` and leaves the
state unchanged; otherwise one `del-flows` command per stored rule is
generated and the entry is removed from the registry afterwards. -/
def delete_flow_rules (st : PathToFlowState) (flowId : String) :
    List String × PathToFlowState :=
  match assocFind? st.active_flows flowId with
  | none => ([], st)
  | some rules =>
    let commands := rules.map (fun r =>
      "sudo ovs-ofctl del-flows " ++ r.switch ++ " in_port=" ++ pyShowOptNat r.in_port)
    (commands, { st with active_flows := assocErase st.active_flows flowId })

/-- The first path node absent from the graph, if any
(`validate_path` node loop). -/
def firstMissingNode (g : TopoGraph) : List String → Option String
  | [] => none
  | n :: ns => if !(nodeMemB g n) then some n else firstMissingNode g ns

/-- The first consecutive pair without an edge, if any
(`validate_path` link loop). -/
def firstMissingEdge (g : TopoGraph) : List String → Option (String × String)
  | a :: b :: rest =>
    if !(hasEdgeB g a b) then some (a, b) else firstMissingEdge g (b :: rest)
  | _ => none

/-- `validate_path`: length, node existence, consecutive edges, then the
simple-path check (`len(set(path)) != len(path)` holds exactly when the list
has a duplicate). -/
def validate_path (tg : TopologyGraphState) (path : List String) : Bool × String :=
  if path.length < 2 then (false, "Path must have at least 2 nodes")
  else
    match firstMissingNode tg.graph path with
    | some n => (false, "Node " ++ n ++ " not found in topology")
    | none =>
      match firstMissingEdge tg.graph path with
      | some pr => (false, "No link between " ++ pr.1 ++ " and " ++ pr.2)
      | none =>
        if path.Nodup then (true, "Valid path")
        else (false, "Path contains loops")

/-! ## Concrete states used by the theorems -/

/-- The adjacency dump of the spec's concrete scenario, exactly as written:
two lines, each a single bare link token. -/
def bareLinkDump : String := "s1-eth1:h1-eth0\x0as1-eth2:h2-eth0"

/-- The same two links in the format `net` actually prints: every line starts
with the node's own name, followed by its interface tokens. -/
def scenarioDump : String :=
  "s1 s1-eth1:h1-eth0 s1-eth2:h2-eth0\x0ah1 h1-eth0:s1-eth1\x0ah2 h2-eth0:s1-eth2"

def scenarioState : TopologyGraphState :=
  (extract_topology_attempt initTopologyGraph scenarioDump).2

/-- A dump in which `h1` occurs only as the peer inside a link token, never
as the first token of a line. -/
def oneLineDump : String := "s1 s1-eth1:h1-eth0"

def oneLineState : TopologyGraphState :=
  (extract_topology_attempt initTopologyGraph oneLineDump).2

/-- `oneLineState` with the raw link records unavailable, so that
`_get_port_pair` answers from the graph fallback. -/
def noRawState : TopologyGraphState := { oneLineState with raw_links := [] }

/-- Nested lookup into the derived `port_mapping` index. -/
def portMapLookup (pm : List (String × List (String × Nat))) (n m : String) : Option Nat :=
  match assocFind? pm n with
  | some inner => assocFind? inner m
  | none => none

/-! ## C1 -/

/-- C1, counterexample: parsing the dump exactly as the claim states it —
`"s1-eth1:h1-eth0"` and `"s1-eth2:h2-eth0"`, each line a single link token —
produces no switches, no hosts and no links at all (the parser skips every
line with fewer than two whitespace-separated tokens), the discovery
iteration rejects the dump, and on the resulting state `find_path(h1, h2)`
is `[]`, not `[h1, s1, h2]`. -/
theorem parse_bare_link_dump_yields_empty_model :
    parse_net_output bareLinkDump = ⟨[], [], []⟩ ∧
    extract_topology_attempt initTopologyGraph bareLinkDump = (false, initTopologyGraph) ∧
    find_path (extract_topology_attempt initTopologyGraph bareLinkDump).2 "h1" "h2" = [] := by
  decide

/-- C1, amended: when each of the two links is declared on a line led by its
node name (the format `net` actually emits), the model contains switch `s1`
(dpid `1`) and hosts `h1`, `h2`; the port pair of edge `s1`–`h1` is `(1, 0)`
and of `s1`–`h2` is `(2, 0)`; `find_path(h1, h2)` returns `[h1, s1, h2]`,
and `create_flow_rules([h1, s1, h2])` emits exactly the forward rule
`in_port=1, out_port=2` and the reverse rule `in_port=2, out_port=1` for the
single switch `s1`. -/
theorem concrete_scenario_with_node_prefixed_lines :
    parse_net_output scenarioDump =
      ⟨[⟨"s1", "1"⟩], [⟨"h1", "10.0.0.1/24"⟩, ⟨"h2", "10.0.0.2/24"⟩],
       [⟨"h1", "s1", 0, 1⟩, ⟨"h2", "s1", 0, 2⟩]⟩ ∧
    (extract_topology_attempt initTopologyGraph scenarioDump).1 = true ∧
    get_port_pair scenarioState "s1" "h1" = (some 1, some 0) ∧
    get_port_pair scenarioState "s1" "h2" = (some 2, some 0) ∧
    find_path scenarioState "h1" "h2" = ["h1", "s1", "h2"] ∧
    (create_flow_rules ⟨scenarioState, []⟩ ["h1", "s1", "h2"] (some "f1") 1000).1 =
      [⟨"s1", "f1_forward", some 1, some 2, 1000, ["h1", "s1", "h2"], "forward"⟩,
       ⟨"s1", "f1_reverse", some 2, some 1, 1000, ["h2", "s1", "h1"], "reverse"⟩] := by
  decide

/-! ## C3 -/

/-- C3: the claim says that a switch whose ingress or egress port lookup
fails is skipped, with no rule emitted for it.  The code intends this — it
guards with `if h1_to_s1 is None or s1_to_h2 is None: continue` — but
`_get_port_pair` signals failure with the tuple `(None, None)`, never the
bare `None`, so the guard never fires: on a topology with no record of the
hops, `create_flow_rules([h1, s1, h2])` still emits a forward/reverse rule
pair for `s1`, with `in_port` and `out_port` both `None`. -/
theorem create_flow_rules_emits_rules_on_lookup_failure :
    get_port_pair initTopologyGraph "h1" "s1" = (none, none) ∧
    get_port_pair initTopologyGraph "s1" "h2" = (none, none) ∧
    (create_flow_rules ⟨initTopologyGraph, []⟩ ["h1", "s1", "h2"] (some "f1") 1000).1 =
      [⟨"s1", "f1_forward", none, none, 1000, ["h1", "s1", "h2"], "forward"⟩,
       ⟨"s1", "f1_reverse", none, none, 1000, ["h2", "s1", "h1"], "reverse"⟩] := by
  decide

/-! ## C4 -/

/-- C4, counterexample: for the single-node path `[h1]`,
`create_flow_rules` returns `[]` before reaching the registration step, so
after the call completes the registry does not map the flow id at all —
refuting the claim's "for every path p". -/
theorem create_short_path_not_registered :
    create_flow_rules ⟨initTopologyGraph, []⟩ ["h1"] (some "f1") 1000 =
      ([], ⟨initTopologyGraph, []⟩) ∧
    assocFind?
      (create_flow_rules ⟨initTopologyGraph, []⟩ ["h1"] (some "f1") 1000).2.active_flows
      "f1" = none := by
  decide

/-! ## C5 -/

/-- C5, counterexample: `find_path(h1, h1)` on the scenario topology returns
the non-empty path `[h1]` (`nx.shortest_path` returns the singleton when
source equals target), and that path fails `validate_path` because it has
fewer than two nodes. -/
theorem find_path_self_loop_fails_validate :
    find_path scenarioState "h1" "h1" = ["h1"] ∧
    validate_path scenarioState (find_path scenarioState "h1" "h1") =
      (false, "Path must have at least 2 nodes") := by
  decide

/-! ## C6 -/

/-- C6: the claim says the port-pair lookup is symmetric in both answer
sources.  The raw-record answers are symmetric, but the graph fallback is
not: `G.has_edge` is direction-insensitive on an undirected graph, so both
query orders take the first branch and read `(source_port, target_port)` in
the same order — the code's own comments (`# node1的端口`) say the first
component should be the queried node's own port.  With the raw records
unavailable and the single edge `h1`–`s1` carrying ports `(0, 1)`, both
query orders return `(0, 1)` instead of each other's reverse. -/
theorem get_port_pair_graph_fallback_not_symmetric :
    get_port_pair noRawState "h1" "s1" = (some 0, some 1) ∧
    get_port_pair noRawState "s1" "h1" = (some 0, some 1) ∧
    get_port_pair noRawState "s1" "h1" ≠
      ((get_port_pair noRawState "h1" "s1").2, (get_port_pair noRawState "h1" "s1").1) := by
  decide

/-! ## C8 -/

/-- C8: the claim says `port_mapping[n][m]` is `n`'s own local port on the
edge — `source_port` when `n` is the stored source endpoint.  `add_edge`
stores only `source_port`/`target_port`, so `_build_port_mapping`'s test
`node == edge_data.get('source')` compares against `None` and always takes
the `target_port` arm: for the edge `(h1, s1)` with ports `(0, 1)` — `h1`
the stored source endpoint with local port `0` — the mapping records
`port_mapping[h1][s1] = 1`. -/
theorem port_mapping_uses_target_port_for_source_endpoint :
    oneLineState.graph.edges =
      [⟨"h1", "s1", [("source_port", .nat 0), ("target_port", .nat 1)]⟩] ∧
    portMapLookup oneLineState.port_mapping "h1" "s1" = some 1 ∧
    portMapLookup oneLineState.port_mapping "h1" "s1" ≠ some 0 := by
  decide

/-! ## C9 -/

/-- C9, counterexample: in the dump `"s1 s1-eth1:h1-eth0"` the node `h1`
appears only as the peer inside a link token.  It becomes a graph node (as
an implicitly added edge endpoint, without attributes), and
`get_topology_data` reports it with the type `"unknown"` — refuting the
claim that no discovered node is reported as `"unknown"`. -/
theorem peer_only_node_reported_unknown :
    (get_topology_data oneLineState).1 =
      [⟨"s1", "switch", ""⟩, ⟨"h1", "unknown", ""⟩] := by
  decide

/-- The rule list `create_flow_rules` produces for a path once the flow id is
fixed (the body of the switch loop and rule-pair generation). -/
def buildRules (st : PathToFlowState) (path : List String) (flowId : String) (priority : Nat) :
    List FlowRule :=
  ((buildSwitchPortMap st.topology_graph (pathTriples path) []).map (fun p =>
    [mkFwdRule flowId priority path p.1 p.2, mkRevRule flowId priority path p.1 p.2])).flatten

/-! ## Association-list lemmas (Python dict semantics) -/

theorem find?_map_setKey {β : Type} (k : String) (v : β) :
    ∀ m : List (String × β), m.any (fun p => p.1 == k) = true →
      ((m.map (fun p => if p.1 == k then (k, v) else p)).find? (fun p => p.1 == k)) =
        some (k, v)
  | [], h => by simp at h
  | p :: r, h => by
    by_cases hp : (p.1 == k) = true
    · simp only [List.map_cons, if_pos hp]
      exact List.find?_cons_of_pos _ (by simp)
    · have hr : r.any (fun p => p.1 == k) = true := by
        simp only [List.any_cons] at h
        rcases Bool.or_eq_true_iff.mp h with h1 | h1
        · exact absurd h1 hp
        · exact h1
      have hpf : (p.1 == k) = false := by simpa using hp
      simp only [List.map_cons]
      rw [if_neg hp]
      simp only [List.find?]
      rw [hpf]
      exact find?_map_setKey k v r hr

theorem assocFind?_assocSet {β : Type} (m : List (String × β)) (k : String) (v : β) :
    assocFind? (assocSet m k v) k = some v := by
  unfold assocSet
  split
  · rename_i hany
    unfold assocFind?
    rw [find?_map_setKey k v m hany]
  · rename_i hany
    have hnone : m.find? (fun p => p.1 == k) = none := by
      rw [List.find?_eq_none]
      intro p hp hcon
      exact hany (by rw [List.any_eq_true]; exact ⟨p, hp, hcon⟩)
    unfold assocFind?
    rw [List.find?_append, hnone]
    rw [List.find?_cons_of_pos _ (by simp)]
    rfl

theorem assocFind?_assocErase_self {β : Type} (m : List (String × β)) (k : String) :
    assocFind? (assocErase m k) k = none := by
  have hnone : (m.filter (fun p => !(p.1 == k))).find? (fun p => p.1 == k) = none := by
    rw [List.find?_eq_none]
    intro p hp
    have h2 := List.of_mem_filter hp
    simp only [Bool.not_eq_true'] at h2
    simp [h2]
  unfold assocFind? assocErase
  rw [hnone]

/-! ## C4 -/

/-- C4, amended (the claim's "for every path p" narrowed to paths of at
least two nodes — shorter paths exit `create_flow_rules` before the
registration step): after `create_flow_rules(path, f)` the registry maps `f`
to the produced rule list; a subsequent `delete_flow_rules(f)` emits exactly
one delete command per stored rule and removes `f` from the registry after
command generation; a second `delete_flow_rules(f)` reports a registry miss,
returning `[]` and leaving the state unchanged. -/
theorem registry_round_trip (st : PathToFlowState) (path : List String) (f : String)
    (priority : Nat) (hlen : 2 ≤ path.length) :
    assocFind? (create_flow_rules st path (some f) priority).2.active_flows f =
      some (create_flow_rules st path (some f) priority).1 ∧
    (delete_flow_rules (create_flow_rules st path (some f) priority).2 f).1 =
      (create_flow_rules st path (some f) priority).1.map (fun r =>
        "sudo ovs-ofctl del-flows " ++ r.switch ++ " in_port=" ++ pyShowOptNat r.in_port) ∧
    (delete_flow_rules (create_flow_rules st path (some f) priority).2 f).1.length =
      (create_flow_rules st path (some f) priority).1.length ∧
    assocFind?
      (delete_flow_rules (create_flow_rules st path (some f) priority).2 f).2.active_flows
      f = none ∧
    delete_flow_rules (delete_flow_rules (create_flow_rules st path (some f) priority).2 f).2 f =
      ([], (delete_flow_rules (create_flow_rules st path (some f) priority).2 f).2) := by
  have hne : ¬ path.length < 2 := by omega
  have hcreate :
      create_flow_rules st path (some f) priority =
        (buildRules st path f priority,
         { st with active_flows := assocSet st.active_flows f (buildRules st path f priority) }) := by
    unfold create_flow_rules buildRules
    simp [if_neg hne]
  rw [hcreate]
  have hfind : assocFind?
      (assocSet st.active_flows f (buildRules st path f priority)) f =
        some (buildRules st path f priority) :=
    assocFind?_assocSet _ _ _
  have hdel1 :
      delete_flow_rules
        { st with active_flows := assocSet st.active_flows f (buildRules st path f priority) } f =
      ((buildRules st path f priority).map (fun r =>
          "sudo ovs-ofctl del-flows " ++ r.switch ++ " in_port=" ++ pyShowOptNat r.in_port),
       { st with active_flows :=
          assocErase (assocSet st.active_flows f (buildRules st path f priority)) f }) := by
    unfold delete_flow_rules
    rw [hfind]
  refine ⟨hfind, ?_, ?_, ?_, ?_⟩
  · rw [hdel1]
  · rw [hdel1]; simp
  · rw [hdel1]
    exact assocFind?_assocErase_self _ _
  · rw [hdel1]
    unfold delete_flow_rules
    rw [assocFind?_assocErase_self]

/-- C4 witness: the round trip at the concrete scenario state with the path
`[h1, s1, h2]` and flow id `f1`. -/
theorem registry_round_trip_witness :
    assocFind?
      (create_flow_rules ⟨scenarioState, []⟩ ["h1", "s1", "h2"] (some "f1") 1000).2.active_flows
      "f1" =
      some (create_flow_rules ⟨scenarioState, []⟩ ["h1", "s1", "h2"] (some "f1") 1000).1 ∧
    (delete_flow_rules
        (create_flow_rules ⟨scenarioState, []⟩ ["h1", "s1", "h2"] (some "f1") 1000).2 "f1").1 =
      (create_flow_rules ⟨scenarioState, []⟩ ["h1", "s1", "h2"] (some "f1") 1000).1.map (fun r =>
        "sudo ovs-ofctl del-flows " ++ r.switch ++ " in_port=" ++ pyShowOptNat r.in_port) ∧
    (delete_flow_rules
        (create_flow_rules ⟨scenarioState, []⟩ ["h1", "s1", "h2"] (some "f1") 1000).2 "f1").1.length =
      (create_flow_rules ⟨scenarioState, []⟩ ["h1", "s1", "h2"] (some "f1") 1000).1.length ∧
    assocFind?
      (delete_flow_rules
        (create_flow_rules ⟨scenarioState, []⟩ ["h1", "s1", "h2"] (some "f1") 1000).2
        "f1").2.active_flows "f1" = none ∧
    delete_flow_rules
      (delete_flow_rules
        (create_flow_rules ⟨scenarioState, []⟩ ["h1", "s1", "h2"] (some "f1") 1000).2 "f1").2
      "f1" =
      ([], (delete_flow_rules
        (create_flow_rules ⟨scenarioState, []⟩ ["h1", "s1", "h2"] (some "f1") 1000).2 "f1").2) :=
  registry_round_trip ⟨scenarioState, []⟩ ["h1", "s1", "h2"] "f1" 1000 (by decide)

/-! ## Graph lemmas -/

theorem find?_congr' {α : Type} (p q : α → Bool) (h : ∀ x, p x = q x) :
    ∀ l : List α, l.find? p = l.find? q
  | [] => rfl
  | a :: l => by
    simp only [List.find?, h a]
    rw [find?_congr' p q h l]

theorem edgeMatches_symm (e : GEdge) (a b : String) :
    edgeMatches e a b = edgeMatches e b a := by
  unfold edgeMatches
  exact Bool.or_comm _ _

theorem edgeLookup_symm (g : TopoGraph) (a b : String) :
    edgeLookup g a b = edgeLookup g b a := by
  unfold edgeLookup
  exact find?_congr' _ _ (fun e => edgeMatches_symm e a b) g.edges

theorem hasEdgeB_symm (g : TopoGraph) (a b : String) :
    hasEdgeB g a b = hasEdgeB g b a := by
  unfold hasEdgeB
  rw [edgeLookup_symm]

/-- Well-formedness maintained by `networkx`: every edge endpoint is a node
(`add_edge` inserts missing endpoints). -/
def Wf (g : TopoGraph) : Prop :=
  ∀ e ∈ g.edges, nodeMemB g e.u = true ∧ nodeMemB g e.v = true

instance (g : TopoGraph) : Decidable (Wf g) := by
  unfold Wf
  infer_instance

theorem hasEdgeB_elim (g : TopoGraph) (a b : String) (h : hasEdgeB g a b = true) :
    ∃ e ∈ g.edges, edgeMatches e a b = true := by
  unfold hasEdgeB edgeLookup at h
  rcases Option.isSome_iff_exists.mp h with ⟨e, he⟩
  have hp := List.find?_some he
  exact ⟨e, List.mem_of_find?_eq_some he, by simpa using hp⟩

theorem nodeMemB_of_hasEdgeB {g : TopoGraph} (hwf : Wf g) {a b : String}
    (h : hasEdgeB g a b = true) : nodeMemB g b = true := by
  rcases hasEdgeB_elim g a b h with ⟨e, hmem, hmatch⟩
  rcases hwf e hmem with ⟨hu, hv⟩
  unfold edgeMatches at hmatch
  rcases Bool.or_eq_true_iff.mp hmatch with h1 | h1
  · rcases Bool.and_eq_true_iff.mp h1 with ⟨_, h3⟩
    rw [← (by simpa using h3 : e.v = b)]
    exact hv
  · rcases Bool.and_eq_true_iff.mp h1 with ⟨h2, _⟩
    rw [← (by simpa using h2 : e.u = b)]
    exact hu

theorem mem_dedupAux {x : String} :
    ∀ (l seen : List String), x ∈ dedupAux l seen → x ∈ l
  | [], _, h => by simp [dedupAux] at h
  | y :: l, seen, h => by
    unfold dedupAux at h
    split at h
    · exact List.mem_cons_of_mem _ (mem_dedupAux l seen h)
    · rcases List.mem_cons.mp h with h1 | h1
      · exact h1 ▸ List.mem_cons_self _ _
      · exact List.mem_cons_of_mem _ (mem_dedupAux l _ h1)

theorem hasEdgeB_of_mem_neighbors {g : TopoGraph} {n m : String}
    (h : m ∈ neighbors g n) : hasEdgeB g n m = true := by
  unfold neighbors at h
  have h2 := mem_dedupAux _ _ h
  rcases List.mem_filterMap.mp h2 with ⟨e, hmem, he⟩
  have hmatch : edgeMatches e n m = true := by
    unfold edgeMatches
    by_cases hu : (e.u == n) = true
    · rw [if_pos hu] at he
      have hv : e.v = m := by injection he
      rw [Bool.or_eq_true_iff]
      exact Or.inl (by rw [Bool.and_eq_true_iff]; exact ⟨hu, by simp [hv]⟩)
    · rw [if_neg hu] at he
      by_cases hv : (e.v == n) = true
      · rw [if_pos hv] at he
        have hu2 : e.u = m := by injection he
        rw [Bool.or_eq_true_iff]
        exact Or.inr (by rw [Bool.and_eq_true_iff]; exact ⟨by simp [hu2], hv⟩)
      · rw [if_neg hv] at he
        cases he
  unfold hasEdgeB edgeLookup
  exact List.find?_isSome.mpr ⟨e, hmem, hmatch⟩

/-! ## Breadth-first-search soundness -/

/-- The step relation of a stored (reversed) search path: consecutive nodes
are joined by an undirected edge. -/
def EdgeRel (g : TopoGraph) (a b : String) : Prop := hasEdgeB g a b = true

theorem edgeRel_symm {g : TopoGraph} {a b : String} (h : EdgeRel g a b) : EdgeRel g b a := by
  unfold EdgeRel at *
  rw [hasEdgeB_symm]
  exact h

/-- A sound queue entry viewed without the visited set: a nonempty
duplicate-free edge walk stored in reverse, ending at `src`, through graph
nodes. -/
def GoodWalk (g : TopoGraph) (src : String) (p : List String) : Prop :=
  p ≠ [] ∧ p.getLast? = some src ∧ p.Chain' (EdgeRel g) ∧ p.Nodup ∧
    ∀ x ∈ p, nodeMemB g x = true

theorem goodWalk_extend {g : TopoGraph} {src m : String} {p : List String}
    (hwf : Wf g) (hgood : GoodWalk g src p)
    (hedge : ∀ hd, p.head? = some hd → hasEdgeB g hd m = true)
    (hnotin : m ∉ p) : GoodWalk g src (m :: p) := by
  obtain ⟨hne, hlast, hchain, hnodup, hmem⟩ := hgood
  refine ⟨by simp, ?_, ?_, ?_, ?_⟩
  · cases p with
    | nil => exact absurd rfl hne
    | cons a t => rw [List.getLast?_cons_cons]; exact hlast
  · rw [List.chain'_cons']
    refine ⟨?_, hchain⟩
    intro b hb
    exact edgeRel_symm (hedge b (Option.mem_def.mp hb))
  · exact List.nodup_cons.mpr ⟨hnotin, hnodup⟩
  · intro x hx
    rcases List.mem_cons.mp hx with h1 | h1
    · subst h1
      cases p with
      | nil => exact absurd rfl hne
      | cons a t =>
        exact nodeMemB_of_hasEdgeB hwf (hedge a rfl)
    · exact hmem x h1

/-- Invariant preservation through the neighbor-expansion fold of the
breadth-first search. -/
theorem bfsExpand_fold_spec (g : TopoGraph) (src : String) (p : List String)
    (hwf : Wf g) (hgood : GoodWalk g src p) (ms : List String) :
    ∀ (acc : List (List String) × List String),
      (∀ x ∈ ms, ∀ hd, p.head? = some hd → hasEdgeB g hd x = true) →
      (∀ x ∈ p, x ∈ acc.2) →
      (∀ q ∈ acc.1, GoodWalk g src q ∧ ∀ x ∈ q, x ∈ acc.2) →
      (∀ x ∈ acc.2,
        x ∈ (ms.foldl (fun acc m => if m ∈ acc.2 then acc else (acc.1 ++ [m :: p], m :: acc.2)) acc).2) ∧
      (∀ q ∈ (ms.foldl (fun acc m => if m ∈ acc.2 then acc else (acc.1 ++ [m :: p], m :: acc.2)) acc).1,
        GoodWalk g src q ∧
          ∀ x ∈ q,
            x ∈ (ms.foldl (fun acc m => if m ∈ acc.2 then acc else (acc.1 ++ [m :: p], m :: acc.2)) acc).2) := by
  induction ms with
  | nil =>
    intro acc _ _ hq
    exact ⟨fun x hx => hx, hq⟩
  | cons m ms ih =>
    intro acc hms hp hq
    by_cases hmem : m ∈ acc.2
    · simp only [List.foldl_cons, if_pos hmem]
      exact ih acc (fun x hx => hms x (List.mem_cons_of_mem _ hx)) hp hq
    · simp only [List.foldl_cons, if_neg hmem]
      have hmp : m ∉ p := fun hc => hmem (hp m hc)
      have hgoodm : GoodWalk g src (m :: p) :=
        goodWalk_extend hwf hgood (fun hd hhd => hms m (List.mem_cons_self _ _) hd hhd) hmp
      have hstep := ih (acc.1 ++ [m :: p], m :: acc.2)
        (fun x hx => hms x (List.mem_cons_of_mem _ hx))
        (fun x hx => List.mem_cons_of_mem _ (hp x hx))
        (by
          intro q hqmem
          rcases List.mem_append.mp hqmem with h1 | h1
          · rcases hq q h1 with ⟨hg, hsub⟩
            exact ⟨hg, fun x hx => List.mem_cons_of_mem _ (hsub x hx)⟩
          · rcases List.mem_singleton.mp h1 with rfl
            refine ⟨hgoodm, ?_⟩
            intro x hx
            rcases List.mem_cons.mp hx with h2 | h2
            · exact h2 ▸ List.mem_cons_self _ _
            · exact List.mem_cons_of_mem _ (hp x h2))
      exact ⟨fun x hx => hstep.1 x (List.mem_cons_of_mem _ hx), hstep.2⟩

/-- Soundness of the search loop: a non-empty result is the reverse of a
sound stored walk whose head is `dst`. -/
theorem bfsAux_sound (g : TopoGraph) (src dst : String) (hwf : Wf g) :
    ∀ (fuel : Nat) (queue : List (List String)) (visited : List String),
      (∀ q ∈ queue, GoodWalk g src q ∧ ∀ x ∈ q, x ∈ visited) →
      bfsAux g dst fuel queue visited = [] ∨
        ∃ p, GoodWalk g src p ∧ p.head? = some dst ∧
          bfsAux g dst fuel queue visited = p.reverse
  | 0, _, _ => fun _ => Or.inl rfl
  | _ + 1, [], _ => fun _ => Or.inl rfl
  | fuel + 1, p :: queue, visited => by
    intro hq
    match hp : p with
    | [] =>
      exact bfsAux_sound g src dst hwf fuel queue visited
        (fun q hq2 => hq q (List.mem_cons_of_mem _ hq2))
    | hd :: t =>
      simp only [bfsAux]
      by_cases hdst : hd = dst
      · rw [if_pos hdst]
        right
        refine ⟨hd :: t, (hq _ (List.mem_cons_self _ _)).1, by rw [hdst]; rfl, rfl⟩
      · rw [if_neg hdst]
        have hgood := (hq _ (List.mem_cons_self _ _)).1
        have hsub := (hq _ (List.mem_cons_self _ _)).2
        have hexp := bfsExpand_fold_spec g src (hd :: t) hwf hgood
          (neighbors g hd) ([], visited)
          (fun x hx hd2 hhd2 => by
            have h3 : hd = hd2 := by
              simp only [List.head?] at hhd2
              injection hhd2
            rw [← h3]
            exact hasEdgeB_of_mem_neighbors hx)
          hsub
          (fun q hq2 => absurd hq2 (List.not_mem_nil q))
        exact bfsAux_sound g src dst hwf fuel
          (queue ++ (bfsExpand g hd (hd :: t) visited).1)
          (bfsExpand g hd (hd :: t) visited).2
          (fun q hq2 => by
            rcases List.mem_append.mp hq2 with h1 | h1
            · rcases hq q (List.mem_cons_of_mem _ h1) with ⟨hg, hs⟩
              exact ⟨hg, fun x hx => hexp.1 x (hs x hx)⟩
            · exact hexp.2 q h1)

/-- Soundness of `find_path`: a non-empty result is a duplicate-free edge
walk from `src` to `dst` through graph nodes. -/
theorem find_path_sound (st : TopologyGraphState) (src dst : String)
    (hwf : Wf st.graph) (hne : find_path st src dst ≠ []) :
    ∃ p, GoodWalk st.graph src p ∧ p.head? = some dst ∧
      find_path st src dst = p.reverse := by
  unfold find_path find_path_alg at *
  by_cases hmem : (!(nodeMemB st.graph src) || !(nodeMemB st.graph dst)) = true
  · rw [if_pos hmem] at hne
    exact absurd rfl hne
  · rw [if_neg hmem] at hne ⊢
    rw [if_pos rfl] at hne ⊢
    have hsrc : nodeMemB st.graph src = true := by
      cases hx : nodeMemB st.graph src with
      | true => rfl
      | false => exact absurd (by rw [hx]; rfl) hmem
    have hinit : ∀ q ∈ [[src]], GoodWalk st.graph src q ∧ ∀ x ∈ q, x ∈ [src] := by
      intro q hq2
      rcases List.mem_singleton.mp hq2 with rfl
      refine ⟨⟨by simp, rfl, List.chain'_singleton _, List.nodup_singleton _, ?_⟩, ?_⟩
      · intro x hx
        rcases List.mem_singleton.mp hx with rfl
        exact hsrc
      · intro x hx
        exact hx
    rcases bfsAux_sound st.graph src dst hwf
      (st.graph.nodes.length + 2 * st.graph.edges.length + 2) [[src]] [src] hinit with h | h
    · exact absurd h hne
    · exact h

/-! ## `validate_path` lemmas -/

theorem firstMissingNode_eq_none (g : TopoGraph) :
    ∀ l : List String, (∀ x ∈ l, nodeMemB g x = true) → firstMissingNode g l = none
  | [], _ => rfl
  | n :: ns, h => by
    have hn : nodeMemB g n = true := h n (List.mem_cons_self _ _)
    unfold firstMissingNode
    rw [if_neg (by rw [hn]; simp)]
    exact firstMissingNode_eq_none g ns (fun x hx => h x (List.mem_cons_of_mem _ hx))

theorem firstMissingEdge_eq_none (g : TopoGraph) :
    ∀ l : List String, l.Chain' (EdgeRel g) → firstMissingEdge g l = none
  | [], _ => rfl
  | [_], _ => rfl
  | a :: b :: rest, h => by
    rcases List.chain'_cons.mp h with ⟨hab, hrest⟩
    unfold firstMissingEdge
    rw [if_neg (by rw [show hasEdgeB g a b = true from hab]; simp)]
    exact firstMissingEdge_eq_none g (b :: rest) hrest

theorem chain'_reverse_edgeRel {g : TopoGraph} {l : List String}
    (h : l.Chain' (EdgeRel g)) : l.reverse.Chain' (EdgeRel g) := by
  rw [List.chain'_reverse]
  exact h.imp (fun a b hab => edgeRel_symm hab)

/-! ## C5 -/

/-- C5, amended (the claim narrowed to distinct endpoints — for
`src = dst`, `find_path` returns the non-empty singleton `[src]`, which
fails the length check): for distinct endpoints, every non-empty path
returned by `find_path` passes `validate_path` with `valid = true`. -/
theorem find_path_nonempty_passes_validate (st : TopologyGraphState) (src dst : String)
    (hwf : Wf st.graph) (hsd : src ≠ dst) (hne : find_path st src dst ≠ []) :
    validate_path st (find_path st src dst) = (true, "Valid path") := by
  rcases find_path_sound st src dst hwf hne with ⟨p, ⟨hpne, hlast, hchain, hnodup, hmem⟩, hhead, heq⟩
  rw [heq]
  have hlen2 : 2 ≤ p.length := by
    cases p with
    | nil => exact absurd rfl hpne
    | cons a t =>
      cases t with
      | nil =>
        exfalso
        have h1 : a = dst := by simpa using hhead
        have h2 : a = src := by simpa using hlast
        exact hsd (by rw [← h1, ← h2])
      | cons b t2 =>
        simp only [List.length_cons]
        omega
  unfold validate_path
  rw [if_neg (by rw [List.length_reverse]; omega)]
  rw [firstMissingNode_eq_none st.graph _ (fun x hx => hmem x (List.mem_reverse.mp hx))]
  rw [firstMissingEdge_eq_none st.graph _ (chain'_reverse_edgeRel hchain)]
  rw [if_pos (List.nodup_reverse.mpr hnodup)]

/-- C5 witness: the validated shortest path `[h1, s1, h2]` on the concrete
scenario topology. -/
theorem find_path_validate_witness :
    Wf scenarioState.graph ∧ "h1" ≠ "h2" ∧ find_path scenarioState "h1" "h2" ≠ [] ∧
    validate_path scenarioState (find_path scenarioState "h1" "h2") = (true, "Valid path") :=
  ⟨by decide, by decide, by decide,
   find_path_nonempty_passes_validate scenarioState "h1" "h2" (by decide) (by decide) (by decide)⟩

/-! ## C10 -/

theorem rawPortScan_eq_none (a b : String) :
    ∀ ls : List Link,
      (∀ l ∈ ls, ¬((l.source = a ∧ l.target = b) ∨ (l.source = b ∧ l.target = a))) →
      rawPortScan ls a b = (none, none)
  | [], _ => rfl
  | l :: ls, h => by
    have h1 := h l (List.mem_cons_self _ _)
    unfold rawPortScan
    rw [if_neg ?_, if_neg ?_]
    · exact rawPortScan_eq_none a b ls (fun x hx => h x (List.mem_cons_of_mem _ hx))
    · intro hc
      rcases Bool.and_eq_true_iff.mp hc with ⟨h2, h3⟩
      exact h1 (Or.inr ⟨by simpa using h2, by simpa using h3⟩)
    · intro hc
      rcases Bool.and_eq_true_iff.mp hc with ⟨h2, h3⟩
      exact h1 (Or.inl ⟨by simpa using h2, by simpa using h3⟩)

/-- C10: no operation of the discovery/synthesis core escalates a failure:
`find_path` returns `[]` when an endpoint is absent and returns only genuine
walks otherwise (hence `[]` whenever no path exists); `validate_path`
returns an explicit `(False, reason)` pair for a too-short path;
`create_flow_rules` returns `[]` (with the state unchanged) for an invalid
path; `delete_flow_rules` returns `[]` on a registry miss; and the port-pair
lookups answer `(None, None)` rather than raising when no matching link
exists in either source. -/
theorem core_operations_return_explicit_failures
    (st : TopologyGraphState) (pf : PathToFlowState) (src dst a b fid : String)
    (p : List String) (flowId? : Option String) (priority : Nat) :
    (nodeMemB st.graph src = false → find_path st src dst = []) ∧
    (nodeMemB st.graph dst = false → find_path st src dst = []) ∧
    (Wf st.graph → find_path st src dst ≠ [] →
      ∃ q, GoodWalk st.graph src q ∧ q.head? = some dst ∧
        find_path st src dst = q.reverse) ∧
    (p.length < 2 → validate_path st p = (false, "Path must have at least 2 nodes")) ∧
    (p.length < 2 → create_flow_rules pf p flowId? priority = ([], pf)) ∧
    (assocFind? pf.active_flows fid = none → delete_flow_rules pf fid = ([], pf)) ∧
    ((∀ l ∈ st.raw_links,
        ¬((l.source = a ∧ l.target = b) ∨ (l.source = b ∧ l.target = a))) →
      get_port_pair_from_raw_links st a b = (none, none)) ∧
    ((∀ l ∈ st.raw_links,
        ¬((l.source = a ∧ l.target = b) ∨ (l.source = b ∧ l.target = a))) →
      hasEdgeB st.graph a b = false → hasEdgeB st.graph b a = false →
      get_port_pair st a b = (none, none)) := by
  have hraw : (∀ l ∈ st.raw_links,
      ¬((l.source = a ∧ l.target = b) ∨ (l.source = b ∧ l.target = a))) →
      get_port_pair_from_raw_links st a b = (none, none) := by
    intro h
    unfold get_port_pair_from_raw_links
    split
    · rfl
    · exact rawPortScan_eq_none a b st.raw_links h
  refine ⟨?_, ?_, ?_, ?_, ?_, ?_, hraw, ?_⟩
  · intro h
    unfold find_path find_path_alg
    simp [h]
  · intro h
    unfold find_path find_path_alg
    simp [h]
  · exact fun hwf hne => find_path_sound st src dst hwf hne
  · intro h
    unfold validate_path
    rw [if_pos h]
  · intro h
    unfold create_flow_rules
    rw [if_pos h]
  · intro h
    unfold delete_flow_rules
    rw [h]
  · intro h hab hba
    unfold get_port_pair
    rw [hraw h]
    simp [hab, hba]

/-- C10 witness: each failure mode exercised on the concrete scenario
topology (absent endpoints `hx`, the too-short path `[h1]`, the unknown flow
id `f9`, and the unlinked pair `(h1, h2)`). -/
theorem core_operations_witness :
    find_path scenarioState "hx" "h2" = [] ∧
    find_path scenarioState "h1" "hx" = [] ∧
    (∃ q, GoodWalk scenarioState.graph "h1" q ∧ q.head? = some "h2" ∧
      find_path scenarioState "h1" "h2" = q.reverse) ∧
    validate_path scenarioState ["h1"] = (false, "Path must have at least 2 nodes") ∧
    create_flow_rules ⟨scenarioState, []⟩ ["h1"] (some "f1") 1000 = ([], ⟨scenarioState, []⟩) ∧
    delete_flow_rules ⟨scenarioState, []⟩ "f9" = ([], ⟨scenarioState, []⟩) ∧
    get_port_pair_from_raw_links scenarioState "h1" "h2" = (none, none) ∧
    get_port_pair scenarioState "h1" "h2" = (none, none) := by
  refine ⟨?_, ?_, ?_, ?_, ?_, ?_, ?_, ?_⟩
  · exact (core_operations_return_explicit_failures scenarioState ⟨scenarioState, []⟩
      "hx" "h2" "h1" "h2" "f9" ["h1"] (some "f1") 1000).1 (by decide)
  · exact (core_operations_return_explicit_failures scenarioState ⟨scenarioState, []⟩
      "h1" "hx" "h1" "h2" "f9" ["h1"] (some "f1") 1000).2.1 (by decide)
  · exact (core_operations_return_explicit_failures scenarioState ⟨scenarioState, []⟩
      "h1" "h2" "h1" "h2" "f9" ["h1"] (some "f1") 1000).2.2.1 (by decide) (by decide)
  · exact (core_operations_return_explicit_failures scenarioState ⟨scenarioState, []⟩
      "h1" "h2" "h1" "h2" "f9" ["h1"] (some "f1") 1000).2.2.2.1 (by decide)
  · exact (core_operations_return_explicit_failures scenarioState ⟨scenarioState, []⟩
      "h1" "h2" "h1" "h2" "f9" ["h1"] (some "f1") 1000).2.2.2.2.1 (by decide)
  · exact (core_operations_return_explicit_failures scenarioState ⟨scenarioState, []⟩
      "h1" "h2" "h1" "h2" "f9" ["h1"] (some "f1") 1000).2.2.2.2.2.1 (by decide)
  · exact (core_operations_return_explicit_failures scenarioState ⟨scenarioState, []⟩
      "h1" "h2" "h1" "h2" "f9" ["h1"] (some "f1") 1000).2.2.2.2.2.2.1 (by decide)
  · exact (core_operations_return_explicit_failures scenarioState ⟨scenarioState, []⟩
      "h1" "h2" "h1" "h2" "f9" ["h1"] (some "f1") 1000).2.2.2.2.2.2.2
      (by decide) (by decide) (by decide)

/-! ## C2 -/

theorem validate_path_true_elim (tg : TopologyGraphState) (path : List String)
    (h : (validate_path tg path).1 = true) :
    2 ≤ path.length ∧ path.Nodup := by
  unfold validate_path at h
  by_cases hlen : path.length < 2
  · rw [if_pos hlen] at h
    simp at h
  · refine ⟨by omega, ?_⟩
    rw [if_neg hlen] at h
    split at h
    · simp at h
    · split at h
      · simp at h
      · by_cases hnd : path.Nodup
        · exact hnd
        · rw [if_neg hnd] at h
          simp at h

theorem pathTriples_middles :
    ∀ p : List String, (pathTriples p).map (fun t => t.2.1) = (p.drop 1).dropLast
  | [] => rfl
  | [_] => rfl
  | [_, _] => rfl
  | a :: b :: c :: rest => by
    show b :: (pathTriples (b :: c :: rest)).map (fun t => t.2.1) =
      ((a :: b :: c :: rest).drop 1).dropLast
    rw [pathTriples_middles (b :: c :: rest)]
    rfl

/-- The entry the `switch_port_map` loop produces for one interior hop. -/
def hopEntry (tg : TopologyGraphState) (t : String × String × String) :
    Option (String × (Option Nat × Option Nat)) :=
  if pyStartsWith t.2.1 "s" then
    some (t.2.1, ((get_port_pair tg t.1 t.2.1).2, (get_port_pair tg t.2.1 t.2.2).1))
  else none

theorem assocSet_append {β : Type} (m : List (String × β)) (k : String) (v : β)
    (h : ∀ q ∈ m, q.1 ≠ k) : assocSet m k v = m ++ [(k, v)] := by
  unfold assocSet
  rw [if_neg ?_]
  intro hc
  rcases List.any_eq_true.mp hc with ⟨q, hq, hqk⟩
  exact h q hq (by simpa using hqk)

theorem buildSwitchPortMap_eq_filterMap (tg : TopologyGraphState) :
    ∀ (ts : List (String × String × String)) (m : List (String × (Option Nat × Option Nat))),
      ((ts.map (fun t => t.2.1)).Nodup) →
      (∀ t ∈ ts, ∀ q ∈ m, q.1 ≠ t.2.1) →
      buildSwitchPortMap tg ts m = m ++ ts.filterMap (hopEntry tg)
  | [], m, _, _ => by simp [buildSwitchPortMap]
  | (prev, sw, nxt) :: ts, m, hnd, hdisj => by
    have hnd2 : ((ts.map (fun t => t.2.1)).Nodup) := (List.nodup_cons.mp hnd).2
    have hsw : sw ∉ ts.map (fun t => t.2.1) := (List.nodup_cons.mp hnd).1
    unfold buildSwitchPortMap
    by_cases hs : pyStartsWith sw "s" = true
    · rw [if_pos hs]
      show buildSwitchPortMap tg ts
          (assocSet m sw ((get_port_pair tg prev sw).2, (get_port_pair tg sw nxt).1)) = _
      rw [assocSet_append m sw _ (fun q hq => hdisj (prev, sw, nxt) (List.mem_cons_self _ _) q hq)]
      rw [buildSwitchPortMap_eq_filterMap tg ts (m ++ [(sw, _)]) hnd2 ?_]
      · rw [show (ts.filterMap (hopEntry tg)) =
              (List.filterMap (hopEntry tg) ((prev, sw, nxt) :: ts)).tail from ?_]
        · simp [hopEntry, hs]
        · simp [List.filterMap_cons, hopEntry, hs]
      · intro t ht q hq
        rcases List.mem_append.mp hq with h1 | h1
        · exact hdisj t (List.mem_cons_of_mem _ ht) q h1
        · rcases List.mem_singleton.mp h1 with rfl
          intro hc
          apply hsw
          rw [show sw = t.2.1 from hc]
          exact List.mem_map.mpr ⟨t, ht, rfl⟩
    · rw [if_neg hs]
      rw [buildSwitchPortMap_eq_filterMap tg ts m hnd2
        (fun t ht q hq => hdisj t (List.mem_cons_of_mem _ ht) q hq)]
      simp [List.filterMap_cons, hopEntry, hs]

theorem flatten_pairs_length {α β : Type} (f g : α → β) :
    ∀ l : List α, ((l.map (fun p => [f p, g p])).flatten).length = 2 * l.length
  | [] => rfl
  | a :: l => by
    simp only [List.map_cons, List.flatten_cons, List.length_append, List.length_cons,
      flatten_pairs_length f g l, List.length_nil]
    omega

theorem filterMap_hopEntry_length (tg : TopologyGraphState) :
    ∀ ts : List (String × String × String),
      (ts.filterMap (hopEntry tg)).length = ts.countP (fun t => pyStartsWith t.2.1 "s")
  | [] => rfl
  | t :: ts => by
    by_cases hs : pyStartsWith t.2.1 "s" = true
    · simp [List.filterMap_cons, hopEntry, hs, List.countP_cons,
        filterMap_hopEntry_length tg ts]
    · simp [List.filterMap_cons, hopEntry, hs, List.countP_cons,
        filterMap_hopEntry_length tg ts]

theorem filterMap_hopEntry_keys (tg : TopologyGraphState) :
    ∀ ts : List (String × String × String),
      (ts.filterMap (hopEntry tg)).map Prod.fst =
        (ts.map (fun t => t.2.1)).filter (fun s => pyStartsWith s "s")
  | [] => rfl
  | t :: ts => by
    by_cases hs : pyStartsWith t.2.1 "s" = true
    · simp [List.filterMap_cons, hopEntry, hs, List.filter_cons,
        filterMap_hopEntry_keys tg ts]
    · simp [List.filterMap_cons, hopEntry, hs, List.filter_cons,
        filterMap_hopEntry_keys tg ts]

theorem rules_filter_nil (f : String) (priority : Nat) (path : List String) (sw : String) :
    ∀ spm : List (String × (Option Nat × Option Nat)),
      (∀ q ∈ spm, q.1 ≠ sw) →
      (((spm.map (fun p =>
          [mkFwdRule f priority path p.1 p.2, mkRevRule f priority path p.1 p.2])).flatten).filter
        (fun r => r.switch == sw && r.direction == "forward")) = [] ∧
      (((spm.map (fun p =>
          [mkFwdRule f priority path p.1 p.2, mkRevRule f priority path p.1 p.2])).flatten).filter
        (fun r => r.switch == sw && r.direction == "reverse")) = []
  | [], _ => ⟨rfl, rfl⟩
  | (k, w) :: spm, h => by
    have hk : k ≠ sw := h (k, w) (List.mem_cons_self _ _)
    have hrec := rules_filter_nil f priority path sw spm
      (fun q hq => h q (List.mem_cons_of_mem _ hq))
    constructor
    · simp only [List.map_cons, List.flatten_cons, List.filter_append]
      rw [hrec.1]
      simp [mkFwdRule, mkRevRule, List.filter_cons, hk]
    · simp only [List.map_cons, List.flatten_cons, List.filter_append]
      rw [hrec.2]
      simp [mkFwdRule, mkRevRule, List.filter_cons, hk]

theorem rules_filter_of_mem (f : String) (priority : Nat) (path : List String) :
    ∀ (spm : List (String × (Option Nat × Option Nat))) (sw : String)
      (v : Option Nat × Option Nat),
      (spm.map Prod.fst).Nodup → (sw, v) ∈ spm →
      (((spm.map (fun p =>
          [mkFwdRule f priority path p.1 p.2, mkRevRule f priority path p.1 p.2])).flatten).filter
        (fun r => r.switch == sw && r.direction == "forward")) =
        [mkFwdRule f priority path sw v] ∧
      (((spm.map (fun p =>
          [mkFwdRule f priority path p.1 p.2, mkRevRule f priority path p.1 p.2])).flatten).filter
        (fun r => r.switch == sw && r.direction == "reverse")) =
        [mkRevRule f priority path sw v]
  | [], _, _, _, hmem => absurd hmem (List.not_mem_nil _)
  | (k, w) :: spm, sw, v, hnd, hmem => by
    have hknotin : k ∉ spm.map Prod.fst := (List.nodup_cons.mp hnd).1
    have hnd2 : (spm.map Prod.fst).Nodup := (List.nodup_cons.mp hnd).2
    rcases List.mem_cons.mp hmem with heq | hmem2
    · injection heq with hksw hv
      subst hksw
      subst hv
      have hzero := rules_filter_nil f priority path sw spm
        (fun q hq => fun hc => hknotin (hc ▸ List.mem_map.mpr ⟨q, hq, rfl⟩))
      constructor
      · simp only [List.map_cons, List.flatten_cons, List.filter_append]
        rw [hzero.1]
        simp [mkFwdRule, mkRevRule, List.filter_cons]
      · simp only [List.map_cons, List.flatten_cons, List.filter_append]
        rw [hzero.2]
        simp [mkFwdRule, mkRevRule, List.filter_cons]
    · have hksw : k ≠ sw := by
        intro hc
        exact hknotin (hc ▸ List.mem_map.mpr ⟨(sw, v), hmem2, rfl⟩)
      have hrec := rules_filter_of_mem f priority path spm sw v hnd2 hmem2
      constructor
      · simp only [List.map_cons, List.flatten_cons, List.filter_append]
        rw [hrec.1]
        simp [mkFwdRule, mkRevRule, List.filter_cons, hksw]
      · simp only [List.map_cons, List.flatten_cons, List.filter_append]
        rw [hrec.2]
        simp [mkFwdRule, mkRevRule, List.filter_cons, hksw]

/-- C2: for a validated simple path whose `k` interior nodes carrying the
`'s'` prefix all resolve their ingress and egress ports, `create_flow_rules`
returns exactly `2k` rules: per such switch exactly one forward rule
(`in_port` = ingress = switch-side component of `portPair(prev, switch)`,
`out_port` = egress = switch-side component of `portPair(switch, next)`,
`path` in original order, flow id suffixed `_forward`) and exactly one
reverse rule (ports swapped, `path` reversed, suffix `_reverse`). -/
theorem create_flow_rules_rule_count_and_content (st : PathToFlowState) (path : List String)
    (f : String) (priority : Nat)
    (hval : (validate_path st.topology_graph path).1 = true)
    (hports : ∀ t ∈ pathTriples path, pyStartsWith t.2.1 "s" = true →
      (get_port_pair st.topology_graph t.1 t.2.1).2.isSome = true ∧
      (get_port_pair st.topology_graph t.2.1 t.2.2).1.isSome = true) :
    (create_flow_rules st path (some f) priority).1.length =
      2 * ((path.drop 1).dropLast.countP (fun n => pyStartsWith n "s")) ∧
    (∀ t ∈ pathTriples path, pyStartsWith t.2.1 "s" = true →
      ((create_flow_rules st path (some f) priority).1.filter
          (fun r => r.switch == t.2.1 && r.direction == "forward")) =
        [⟨t.2.1, f ++ "_forward", (get_port_pair st.topology_graph t.1 t.2.1).2,
          (get_port_pair st.topology_graph t.2.1 t.2.2).1, priority, path, "forward"⟩] ∧
      ((create_flow_rules st path (some f) priority).1.filter
          (fun r => r.switch == t.2.1 && r.direction == "reverse")) =
        [⟨t.2.1, f ++ "_reverse", (get_port_pair st.topology_graph t.2.1 t.2.2).1,
          (get_port_pair st.topology_graph t.1 t.2.1).2, priority, path.reverse, "reverse"⟩]) := by
  obtain ⟨hlen, hnodup⟩ := validate_path_true_elim st.topology_graph path hval
  have hne : ¬ path.length < 2 := by omega
  have hcreate : (create_flow_rules st path (some f) priority).1 =
      ((buildSwitchPortMap st.topology_graph (pathTriples path) []).map (fun p =>
        [mkFwdRule f priority path p.1 p.2, mkRevRule f priority path p.1 p.2])).flatten := by
    unfold create_flow_rules
    rw [if_neg hne]
  have hmidnd : ((pathTriples path).map (fun t => t.2.1)).Nodup := by
    rw [pathTriples_middles]
    exact List.Nodup.sublist
      (List.Sublist.trans (List.dropLast_sublist _) (List.drop_sublist 1 path)) hnodup
  have hspm : buildSwitchPortMap st.topology_graph (pathTriples path) [] =
      (pathTriples path).filterMap (hopEntry st.topology_graph) := by
    rw [buildSwitchPortMap_eq_filterMap st.topology_graph (pathTriples path) [] hmidnd
      (fun t _ q hq => absurd hq (List.not_mem_nil q))]
    exact List.nil_append _
  have hkeysnd :
      (((pathTriples path).filterMap (hopEntry st.topology_graph)).map Prod.fst).Nodup := by
    rw [filterMap_hopEntry_keys]
    exact List.Nodup.filter _ hmidnd
  constructor
  · rw [hcreate, hspm, flatten_pairs_length, filterMap_hopEntry_length]
    have hcount : (pathTriples path).countP (fun t => pyStartsWith t.2.1 "s") =
        ((path.drop 1).dropLast).countP (fun n => pyStartsWith n "s") := by
      rw [← pathTriples_middles path, List.countP_map]
      rfl
    rw [hcount]
  · intro t ht hs
    have hentry : hopEntry st.topology_graph t =
        some (t.2.1, ((get_port_pair st.topology_graph t.1 t.2.1).2,
          (get_port_pair st.topology_graph t.2.1 t.2.2).1)) := by
      unfold hopEntry
      rw [if_pos hs]
    have hmem : (t.2.1, ((get_port_pair st.topology_graph t.1 t.2.1).2,
        (get_port_pair st.topology_graph t.2.1 t.2.2).1)) ∈
        (pathTriples path).filterMap (hopEntry st.topology_graph) :=
      List.mem_filterMap.mpr ⟨t, ht, hentry⟩
    have hfilters := rules_filter_of_mem f priority path
      ((pathTriples path).filterMap (hopEntry st.topology_graph)) t.2.1
      ((get_port_pair st.topology_graph t.1 t.2.1).2,
        (get_port_pair st.topology_graph t.2.1 t.2.2).1) hkeysnd hmem
    rw [hcreate, hspm]
    exact hfilters

/-- C2 witness: the concrete scenario path `[h1, s1, h2]` with its single
interior switch `s1`. -/
theorem create_flow_rules_rule_count_witness :
    (create_flow_rules ⟨scenarioState, []⟩ ["h1", "s1", "h2"] (some "f1") 1000).1.length =
      2 * ((["h1", "s1", "h2"].drop 1).dropLast.countP (fun n => pyStartsWith n "s")) ∧
    ((create_flow_rules ⟨scenarioState, []⟩ ["h1", "s1", "h2"] (some "f1") 1000).1.filter
        (fun r => r.switch == "s1" && r.direction == "forward")) =
      [⟨"s1", "f1_forward", (get_port_pair scenarioState "h1" "s1").2,
        (get_port_pair scenarioState "s1" "h2").1, 1000, ["h1", "s1", "h2"], "forward"⟩] ∧
    ((create_flow_rules ⟨scenarioState, []⟩ ["h1", "s1", "h2"] (some "f1") 1000).1.filter
        (fun r => r.switch == "s1" && r.direction == "reverse")) =
      [⟨"s1", "f1_reverse", (get_port_pair scenarioState "s1" "h2").1,
        (get_port_pair scenarioState "h1" "s1").2, 1000, ["h2", "s1", "h1"], "reverse"⟩] := by
  obtain ⟨h1, h2⟩ := create_flow_rules_rule_count_and_content ⟨scenarioState, []⟩
    ["h1", "s1", "h2"] "f1" 1000 (by decide) (by decide)
  obtain ⟨h3, h4⟩ := h2 ("h1", "s1", "h2") (by decide) (by decide)
  exact ⟨h1, h3, h4⟩

/-! ## C7 -/

theorem strLtChars_asymm :
    ∀ a b : List Char, strLtChars a b = true → strLtChars b a = false
  | [], [], h => by cases h
  | [], _ :: _, _ => rfl
  | _ :: _, [], h => by cases h
  | x :: xs, y :: ys, h => by
    unfold strLtChars at h ⊢
    by_cases hxy : x.toNat < y.toNat
    · rw [if_neg (by omega), if_pos (by omega)]
    · rw [if_neg hxy] at h
      by_cases hyx : y.toNat < x.toNat
      · rw [if_pos hyx] at h
        cases h
      · rw [if_neg hyx] at h
        rw [if_neg hyx, if_neg hxy]
        exact strLtChars_asymm xs ys h

theorem strLtChars_antisymm :
    ∀ a b : List Char, strLtChars a b = false → strLtChars b a = false → a = b
  | [], [], _, _ => rfl
  | [], _ :: _, h, _ => by cases h
  | _ :: _, [], _, h2 => by cases h2
  | x :: xs, y :: ys, h1, h2 => by
    unfold strLtChars at h1 h2
    by_cases hxy : x.toNat < y.toNat
    · rw [if_pos hxy] at h1
      cases h1
    · rw [if_neg hxy] at h1
      by_cases hyx : y.toNat < x.toNat
      · rw [if_pos hyx] at h2
        cases h2
      · rw [if_neg hyx] at h1
        rw [if_neg hyx, if_neg hxy] at h2
        have hchar : x = y := by
          have hnat : x.toNat = y.toNat := by omega
          simpa [Char.ext_iff, UInt32.ext_iff] using hnat
        rw [hchar, strLtChars_antisymm xs ys h1 h2]

theorem pyStrLt_antisymm {a b : String} (h1 : pyStrLt a b = false)
    (h2 : pyStrLt b a = false) : a = b := by
  have hd : a.data = b.data := strLtChars_antisymm a.data b.data h1 h2
  cases a
  cases b
  exact congrArg String.mk hd

theorem parseLinkToken_norm (part : String) (l : Link)
    (h : parseLinkToken part = some l) : pyStrLt l.target l.source = false := by
  unfold parseLinkToken at h
  split at h
  · split at h
    · split at h
      · split at h
        · rename_i hlt
          injection h with h1
          subst h1
          exact strLtChars_asymm _ _ hlt
        · rename_i hlt
          injection h with h1
          subst h1
          simpa using hlt
      · cases h
    · cases h
  · cases h

theorem parse_links_pres (P : Link → Prop)
    (hP : ∀ part l, parseLinkToken part = some l → P l) :
    ∀ (lines : List String) (acc : List String × List String × List Link),
      (∀ l ∈ acc.2.2, P l) → ∀ l ∈ (lines.foldl parseLine acc).2.2, P l
  | [], _, hacc => hacc
  | line :: lines, acc, hacc => by
    refine parse_links_pres P hP lines (parseLine acc line) ?_
    intro l hl
    unfold parseLine at hl
    split at hl
    · exact hacc l hl
    · split at hl
      · exact hacc l hl
      · exact hacc l hl
      · split at hl
        · exact hacc l hl
        · split at hl
          · rcases List.mem_append.mp hl with h1 | h1
            · exact hacc l h1
            · rcases List.mem_filterMap.mp h1 with ⟨part, _, hpart⟩
              exact hP part l hpart
          · split at hl
            · rcases List.mem_append.mp hl with h1 | h1
              · exact hacc l h1
              · rcases List.mem_filterMap.mp h1 with ⟨part, _, hpart⟩
                exact hP part l hpart
            · rcases List.mem_append.mp hl with h1 | h1
              · exact hacc l h1
              · rcases List.mem_filterMap.mp h1 with ⟨part, _, hpart⟩
                exact hP part l hpart

theorem dedupLinks_subset :
    ∀ (ls : List Link) (seen : List (String × String)), ∀ l ∈ dedupLinks ls seen, l ∈ ls
  | [], _, l, h => absurd h (List.not_mem_nil l)
  | x :: ls, seen, l, h => by
    unfold dedupLinks at h
    split at h
    · exact List.mem_cons_of_mem _ (dedupLinks_subset ls seen l h)
    · rcases List.mem_cons.mp h with h1 | h1
      · exact h1 ▸ List.mem_cons_self _ _
      · exact List.mem_cons_of_mem _ (dedupLinks_subset ls _ l h1)

theorem dedupLinks_keys_nodup :
    ∀ (ls : List Link) (seen : List (String × String)),
      ((dedupLinks ls seen).map (fun l => (l.source, l.target))).Nodup ∧
      ∀ l ∈ dedupLinks ls seen, (l.source, l.target) ∉ seen
  | [], _ => ⟨List.nodup_nil, fun l h => absurd h (List.not_mem_nil l)⟩
  | x :: ls, seen => by
    unfold dedupLinks
    split
    · exact dedupLinks_keys_nodup ls seen
    · rename_i hnotseen
      obtain ⟨hnd, hns⟩ := dedupLinks_keys_nodup ls ((x.source, x.target) :: seen)
      refine ⟨?_, ?_⟩
      · rw [List.map_cons, List.nodup_cons]
        refine ⟨?_, hnd⟩
        intro hc
        rcases List.mem_map.mp hc with ⟨l, hl, hkey⟩
        exact hns l hl (hkey ▸ List.mem_cons_self _ _)
      · intro l hl
        rcases List.mem_cons.mp hl with h1 | h1
        · exact h1 ▸ hnotseen
        · exact fun hc => hns l h1 (List.mem_cons_of_mem _ hc)

theorem find?_link_cons_pos (a b : String) (x : Link) (ls : List Link)
    (h : (x.source == a && x.target == b) = true) :
    (x :: ls).find? (fun l => l.source == a && l.target == b) = some x := by
  apply List.find?_cons_of_pos
  exact h

theorem find?_link_cons_neg (a b : String) (x : Link) (ls : List Link)
    (h : (x.source == a && x.target == b) = false) :
    (x :: ls).find? (fun l => l.source == a && l.target == b) =
      ls.find? (fun l => l.source == a && l.target == b) := by
  apply List.find?_cons_of_neg
  simp [h]

theorem dedupLinks_find (a b : String) :
    ∀ (ls : List Link) (seen : List (String × String)),
      (a, b) ∉ seen →
      (dedupLinks ls seen).find? (fun l => l.source == a && l.target == b) =
        ls.find? (fun l => l.source == a && l.target == b)
  | [], _, _ => rfl
  | x :: ls, seen, hab => by
    unfold dedupLinks
    by_cases hpred : (x.source == a && x.target == b) = true
    · have hkey : (x.source, x.target) = (a, b) := by
        rcases Bool.and_eq_true_iff.mp hpred with ⟨h1, h2⟩
        rw [show x.source = a from by simpa using h1, show x.target = b from by simpa using h2]
      split
      · rename_i hseen
        exact absurd (hkey ▸ hseen) hab
      · rw [find?_link_cons_pos a b x _ hpred, find?_link_cons_pos a b x ls hpred]
    · have hpredf : (x.source == a && x.target == b) = false := by
        simpa using hpred
      have hkeyne : (x.source, x.target) ≠ (a, b) := by
        intro hc
        injection hc with h1 h2
        rw [h1, h2] at hpredf
        simp at hpredf
      split
      · rw [find?_link_cons_neg a b x ls hpredf]
        exact dedupLinks_find a b ls seen hab
      · rw [find?_link_cons_neg a b x _ hpredf, find?_link_cons_neg a b x ls hpredf]
        exact dedupLinks_find a b ls _ (by
          intro hc
          rcases List.mem_cons.mp hc with h1 | h1
          · exact hkeyne h1.symm
          · exact hab h1)

/-- C7: after parsing any adjacency dump, (i) every stored record is
normalized — its target is never lexicographically smaller than its source,
so the smaller id sits in the source slot; (ii) the ordered
`(source, target)` keys are pairwise distinct; (iii) hence there is at most
one record per unordered node pair; and (iv) the surviving record for any
key is the first one produced in token order, i.e. the ports of the
first-seen token for a pair are the ones kept. -/
theorem parse_link_dedup_invariants (text : String) :
    (∀ l ∈ (parse_net_output text).links, pyStrLt l.target l.source = false) ∧
    (((parse_net_output text).links.map (fun l => (l.source, l.target))).Nodup) ∧
    (∀ l1 ∈ (parse_net_output text).links, ∀ l2 ∈ (parse_net_output text).links,
      ((l1.source = l2.source ∧ l1.target = l2.target) ∨
        (l1.source = l2.target ∧ l1.target = l2.source)) → l1 = l2) ∧
    (∀ a b : String,
      (parse_net_output text).links.find? (fun l => l.source == a && l.target == b) =
        (parseAccumulate text).2.2.find? (fun l => l.source == a && l.target == b)) := by
  have hlinks : (parse_net_output text).links = dedupLinks (parseAccumulate text).2.2 [] := rfl
  have hraw : ∀ l ∈ (parseAccumulate text).2.2, pyStrLt l.target l.source = false := by
    refine parse_links_pres _ parseLinkToken_norm (pyLines text) ([], [], []) ?_
    intro l hl
    cases hl
  have hnorm : ∀ l ∈ (parse_net_output text).links, pyStrLt l.target l.source = false := by
    intro l hl
    exact hraw l (dedupLinks_subset _ _ l (hlinks ▸ hl))
  have hnd : ((parse_net_output text).links.map (fun l => (l.source, l.target))).Nodup := by
    rw [hlinks]
    exact (dedupLinks_keys_nodup _ []).1
  refine ⟨hnorm, hnd, ?_, ?_⟩
  · intro l1 h1 l2 h2 hsame
    have hinj := List.inj_on_of_nodup_map hnd
    rcases hsame with ⟨hs, ht⟩ | ⟨hs, ht⟩
    · exact hinj h1 h2 (by rw [hs, ht])
    · have e1 := hnorm l1 h1
      rw [hs, ht] at e1
      have e2 := hnorm l2 h2
      have heq : l2.target = l2.source := pyStrLt_antisymm e2 e1
      exact hinj h1 h2 (by rw [hs, ht, heq])
  · intro a b
    rw [hlinks]
    exact dedupLinks_find a b _ [] (List.not_mem_nil _)

/-- C7 witness: the invariants exercised on the concrete scenario dump and
its record for the pair `(h1, s1)`. -/
theorem parse_link_dedup_invariants_witness :
    pyStrLt "s1" "h1" = false ∧
    (((parse_net_output scenarioDump).links.map (fun l => (l.source, l.target))).Nodup) ∧
    ((⟨"h1", "s1", 0, 1⟩ : Link) = ⟨"h1", "s1", 0, 1⟩) ∧
    ((parse_net_output scenarioDump).links.find?
        (fun l => l.source == "h1" && l.target == "s1") =
      (parseAccumulate scenarioDump).2.2.find?
        (fun l => l.source == "h1" && l.target == "s1")) := by
  obtain ⟨h1, h2, h3, h4⟩ := parse_link_dedup_invariants scenarioDump
  refine ⟨?_, h2, ?_, h4 "h1" "s1"⟩
  · exact h1 ⟨"h1", "s1", 0, 1⟩ (by decide)
  · exact h3 ⟨"h1", "s1", 0, 1⟩ (by decide) ⟨"h1", "s1", 0, 1⟩ (by decide) (Or.inl ⟨rfl, rfl⟩)

/-! ## C9 -/

theorem mem_setAdd {l : List String} {x y : String} :
    y ∈ setAdd l x ↔ y ∈ l ∨ y = x := by
  unfold setAdd
  split
  · rename_i hx
    constructor
    · exact Or.inl
    · rintro (h | rfl)
      · exact h
      · exact hx
  · rw [List.mem_append, List.mem_singleton]

theorem mem_insertSorted {y x : String} :
    ∀ l : List String, y ∈ insertSorted x l ↔ y = x ∨ y ∈ l
  | [] => by simp [insertSorted]
  | z :: l => by
    unfold insertSorted
    split
    · rw [List.mem_cons, mem_insertSorted l, List.mem_cons]
      tauto
    · rw [List.mem_cons, List.mem_cons]

theorem mem_sortStrings {y : String} : ∀ l : List String, y ∈ sortStrings l ↔ y ∈ l
  | [] => Iff.rfl
  | x :: l => by
    show y ∈ insertSorted x (l.foldr insertSorted []) ↔ _
    rw [mem_insertSorted, List.mem_cons]
    have := mem_sortStrings (y := y) l
    unfold sortStrings at this
    rw [this]

theorem not_h_of_s {x : String} (h : pyStartsWith x "s" = true) :
    pyStartsWith x "h" = false := by
  unfold pyStartsWith at h ⊢
  rw [show ("s" : String).data = ['s'] from rfl] at h
  rw [show ("h" : String).data = ['h'] from rfl]
  cases hx : x.data with
  | nil => rw [hx] at h; cases h
  | cons c cs =>
    rw [hx] at h
    unfold startsWithChars at h
    rcases Bool.and_eq_true_iff.mp h with ⟨hc, _⟩
    have hcs : c = 's' := by simpa using hc
    subst hcs
    rfl

/-- The node-name sets touched by one parsed line: the switch set either
stays or gains one `'s'`-prefixed name, the host set either stays or gains
one `'h'`-prefixed name. -/
theorem parseLine_names (acc : List String × List String × List Link) (line : String) :
    ((parseLine acc line).1 = acc.1 ∨
      ∃ n, pyStartsWith n "s" = true ∧ (parseLine acc line).1 = setAdd acc.1 n) ∧
    ((parseLine acc line).2.1 = acc.2.1 ∨
      ∃ n, pyStartsWith n "h" = true ∧ (parseLine acc line).2.1 = setAdd acc.2.1 n) := by
  unfold parseLine
  split
  · exact ⟨Or.inl rfl, Or.inl rfl⟩
  · split
    · exact ⟨Or.inl rfl, Or.inl rfl⟩
    · exact ⟨Or.inl rfl, Or.inl rfl⟩
    · split
      · exact ⟨Or.inl rfl, Or.inl rfl⟩
      · split
        · rename_i hs
          exact ⟨Or.inr ⟨_, hs, rfl⟩, Or.inl rfl⟩
        · split
          · rename_i hh
            exact ⟨Or.inl rfl, Or.inr ⟨_, hh, rfl⟩⟩
          · exact ⟨Or.inl rfl, Or.inl rfl⟩

theorem parse_name_sets_spec :
    ∀ (lines : List String) (acc : List String × List String × List Link),
      (∀ x ∈ acc.1, pyStartsWith x "s" = true) →
      (∀ x ∈ acc.2.1, pyStartsWith x "h" = true) →
      (∀ x ∈ (lines.foldl parseLine acc).1, pyStartsWith x "s" = true) ∧
      (∀ x ∈ (lines.foldl parseLine acc).2.1, pyStartsWith x "h" = true)
  | [], _, hs, hh => ⟨hs, hh⟩
  | line :: lines, acc, hs, hh => by
    obtain ⟨h1, h2⟩ := parseLine_names acc line
    refine parse_name_sets_spec lines (parseLine acc line) ?_ ?_
    · rcases h1 with he | ⟨n, hn, he⟩
      · rw [he]; exact hs
      · rw [he]
        intro x hx
        rcases mem_setAdd.mp hx with h3 | rfl
        · exact hs x h3
        · exact hn
    · rcases h2 with he | ⟨n, hn, he⟩
      · rw [he]; exact hh
      · rw [he]
        intro x hx
        rcases mem_setAdd.mp hx with h3 | rfl
        · exact hh x h3
        · exact hn

theorem map_fun_id {α : Type} : ∀ l : List α, l.map (fun x => x) = l
  | [] => rfl
  | x :: l => by rw [List.map_cons, map_fun_id l]

theorem switch_names_eq (text : String) :
    (parse_net_output text).switches.map SwitchRec.name =
      sortStrings (parseAccumulate text).1 := by
  show ((sortStrings (parseAccumulate text).1).map
    (fun s => (⟨s, stripAllS s⟩ : SwitchRec))).map SwitchRec.name = _
  rw [List.map_map]
  exact map_fun_id _

theorem host_names_eq (text : String) :
    (parse_net_output text).hosts.map HostRec.name =
      sortStrings (parseAccumulate text).2.1 := by
  show ((sortStrings (parseAccumulate text).2.1).map
    (fun h => (⟨h, hostIp h⟩ : HostRec))).map HostRec.name = _
  rw [List.map_map]
  exact map_fun_id _

/-! Preservation of node-attribute facts through the graph-building folds. -/

/-- The `type` attribute `get_topology_data` will report for a node, as
dictated by the parsed name sets. -/
def expectedType (pt : ParsedTopo) (n : String) : String :=
  if n ∈ pt.switches.map SwitchRec.name then "switch"
  else if n ∈ pt.hosts.map HostRec.name then "host"
  else "unknown"

def NodesP (pt : ParsedTopo) (g : TopoGraph) : Prop :=
  ∀ p ∈ g.nodes, dictGetStr p.2 "type" "unknown" = expectedType pt p.1

theorem nodeMemB_add_node_mono {g : TopoGraph} {n m : String} {a : AttrDict}
    (h : nodeMemB g m = true) : nodeMemB (add_node g n a) m = true := by
  unfold add_node
  split
  · unfold nodeMemB at h ⊢
    rcases List.any_eq_true.mp h with ⟨p, hp, hpm⟩
    by_cases hpn : (p.1 == n) = true
    · exact List.any_eq_true.mpr ⟨(p.1, a), List.mem_map.mpr ⟨p, hp, by rw [if_pos hpn]⟩, hpm⟩
    · exact List.any_eq_true.mpr ⟨p, List.mem_map.mpr ⟨p, hp, by rw [if_neg hpn]⟩, hpm⟩
  · unfold nodeMemB at h ⊢
    rcases List.any_eq_true.mp h with ⟨p, hp, hpm⟩
    exact List.any_eq_true.mpr ⟨p, List.mem_append.mpr (Or.inl hp), hpm⟩

theorem nodeMemB_add_node_self (g : TopoGraph) (n : String) (a : AttrDict) :
    nodeMemB (add_node g n a) n = true := by
  unfold add_node
  split
  · rename_i hany
    rcases List.any_eq_true.mp hany with ⟨p, hp, hpn⟩
    unfold nodeMemB
    exact List.any_eq_true.mpr ⟨(p.1, a), List.mem_map.mpr ⟨p, hp, by rw [if_pos hpn]⟩, hpn⟩
  · unfold nodeMemB
    exact List.any_eq_true.mpr ⟨(n, a), List.mem_append.mpr (Or.inr (List.mem_singleton.mpr rfl)),
      by simp⟩

theorem nodeMemB_ensureNode_mono {g : TopoGraph} {n m : String}
    (h : nodeMemB g m = true) : nodeMemB (ensureNode g n) m = true := by
  unfold ensureNode
  split
  · exact h
  · unfold nodeMemB at h ⊢
    rcases List.any_eq_true.mp h with ⟨p, hp, hpm⟩
    exact List.any_eq_true.mpr ⟨p, List.mem_append.mpr (Or.inl hp), hpm⟩

theorem add_edge_nodes (g : TopoGraph) (a b : String) (attrs : AttrDict) :
    (add_edge g a b attrs).nodes = (ensureNode (ensureNode g a) b).nodes := by
  simp only [add_edge]
  split <;> rfl

theorem nodeMemB_add_edge_mono {g : TopoGraph} {a b m : String} {attrs : AttrDict}
    (h : nodeMemB g m = true) : nodeMemB (add_edge g a b attrs) m = true := by
  unfold nodeMemB
  rw [add_edge_nodes]
  exact nodeMemB_ensureNode_mono (nodeMemB_ensureNode_mono h)

theorem nodesP_add_node (pt : ParsedTopo) {g : TopoGraph} (n : String) (attrs : AttrDict)
    (hg : NodesP pt g) (hn : dictGetStr attrs "type" "unknown" = expectedType pt n) :
    NodesP pt (add_node g n attrs) := by
  intro p hp
  unfold add_node at hp
  split at hp
  · rcases List.mem_map.mp hp with ⟨q, hq, hqe⟩
    by_cases hqn : (q.1 == n) = true
    · rw [if_pos hqn] at hqe
      rw [← hqe]
      show dictGetStr attrs "type" "unknown" = expectedType pt q.1
      rw [show q.1 = n from by simpa using hqn]
      exact hn
    · rw [if_neg hqn] at hqe
      rw [← hqe]
      exact hg q hq
  · rcases List.mem_append.mp hp with h1 | h1
    · exact hg p h1
    · rcases List.mem_singleton.mp h1 with rfl
      exact hn

theorem nodesP_ensureNode (pt : ParsedTopo) {g : TopoGraph} (n : String)
    (hg : NodesP pt g)
    (hknown : ∀ m, (m ∈ pt.switches.map SwitchRec.name ∨ m ∈ pt.hosts.map HostRec.name) →
      nodeMemB g m = true) :
    NodesP pt (ensureNode g n) := by
  intro p hp
  unfold ensureNode at hp
  split at hp
  · exact hg p hp
  · rename_i hnmem
    rcases List.mem_append.mp hp with h1 | h1
    · exact hg p h1
    · rcases List.mem_singleton.mp h1 with rfl
      show dictGetStr [] "type" "unknown" = expectedType pt n
      have hnsw : n ∉ pt.switches.map SwitchRec.name :=
        fun hc => hnmem (hknown n (Or.inl hc))
      have hnh : n ∉ pt.hosts.map HostRec.name :=
        fun hc => hnmem (hknown n (Or.inr hc))
      unfold expectedType
      rw [if_neg hnsw, if_neg hnh]
      rfl

theorem phase3_spec (pt : ParsedTopo) :
    ∀ (links : List Link) (g : TopoGraph),
      NodesP pt g →
      (∀ m, (m ∈ pt.switches.map SwitchRec.name ∨ m ∈ pt.hosts.map HostRec.name) →
        nodeMemB g m = true) →
      NodesP pt (links.foldl (fun g l => add_edge g l.source l.target
        [("source_port", .nat l.source_port), ("target_port", .nat l.target_port)]) g)
  | [], _, hg, _ => hg
  | l :: links, g, hg, hknown => by
    refine phase3_spec pt links _ ?_ ?_
    · have h1 : NodesP pt (ensureNode g l.source) := nodesP_ensureNode pt _ hg hknown
      have h2 : NodesP pt (ensureNode (ensureNode g l.source) l.target) :=
        nodesP_ensureNode pt _ h1 (fun m hm => nodeMemB_ensureNode_mono (hknown m hm))
      intro p hp
      rw [add_edge_nodes] at hp
      exact h2 p hp
    · exact fun m hm => nodeMemB_add_edge_mono (hknown m hm)

theorem phase1_spec (pt : ParsedTopo) :
    ∀ (swl : List SwitchRec) (g : TopoGraph),
      NodesP pt g →
      (∀ s ∈ swl, s.name ∈ pt.switches.map SwitchRec.name) →
      NodesP pt (swl.foldl (fun g sw =>
        add_node g sw.name [("type", .str "switch"), ("dpid", .str sw.dpid)]) g) ∧
      (∀ m, nodeMemB g m = true →
        nodeMemB (swl.foldl (fun g sw =>
          add_node g sw.name [("type", .str "switch"), ("dpid", .str sw.dpid)]) g) m = true) ∧
      (∀ s ∈ swl,
        nodeMemB (swl.foldl (fun g sw =>
          add_node g sw.name [("type", .str "switch"), ("dpid", .str sw.dpid)]) g) s.name = true)
  | [], _, hg, _ => ⟨hg, fun _ h => h, fun s hs => absurd hs (List.not_mem_nil s)⟩
  | sw :: swl, g, hg, hmem => by
    have hP : NodesP pt (add_node g sw.name [("type", .str "switch"), ("dpid", .str sw.dpid)]) := by
      refine nodesP_add_node pt _ _ hg ?_
      show "switch" = expectedType pt sw.name
      unfold expectedType
      rw [if_pos (hmem sw (List.mem_cons_self _ _))]
    obtain ⟨ih1, ih2, ih3⟩ := phase1_spec pt swl
      (add_node g sw.name [("type", .str "switch"), ("dpid", .str sw.dpid)]) hP
      (fun s hs => hmem s (List.mem_cons_of_mem _ hs))
    refine ⟨ih1, ?_, ?_⟩
    · exact fun m hm => ih2 m (nodeMemB_add_node_mono hm)
    · intro s hs
      rcases List.mem_cons.mp hs with rfl | h1
      · exact ih2 s.name (nodeMemB_add_node_self g s.name _)
      · exact ih3 s h1

theorem phase2_spec (pt : ParsedTopo)
    (hd : ∀ x ∈ pt.hosts.map HostRec.name, x ∉ pt.switches.map SwitchRec.name) :
    ∀ (hl : List HostRec) (g : TopoGraph),
      NodesP pt g →
      (∀ h ∈ hl, h.name ∈ pt.hosts.map HostRec.name) →
      NodesP pt (hl.foldl (fun g h =>
        add_node g h.name [("type", .str "host"), ("ip", .str h.ip)]) g) ∧
      (∀ m, nodeMemB g m = true →
        nodeMemB (hl.foldl (fun g h =>
          add_node g h.name [("type", .str "host"), ("ip", .str h.ip)]) g) m = true) ∧
      (∀ h ∈ hl,
        nodeMemB (hl.foldl (fun g h =>
          add_node g h.name [("type", .str "host"), ("ip", .str h.ip)]) g) h.name = true)
  | [], _, hg, _ => ⟨hg, fun _ h => h, fun h hh => absurd hh (List.not_mem_nil h)⟩
  | hr :: hl, g, hg, hmem => by
    have hP : NodesP pt (add_node g hr.name [("type", .str "host"), ("ip", .str hr.ip)]) := by
      refine nodesP_add_node pt _ _ hg ?_
      show "host" = expectedType pt hr.name
      unfold expectedType
      rw [if_neg (hd hr.name (hmem hr (List.mem_cons_self _ _))),
        if_pos (hmem hr (List.mem_cons_self _ _))]
    obtain ⟨ih1, ih2, ih3⟩ := phase2_spec pt hd hl
      (add_node g hr.name [("type", .str "host"), ("ip", .str hr.ip)]) hP
      (fun h hs => hmem h (List.mem_cons_of_mem _ hs))
    refine ⟨ih1, ?_, ?_⟩
    · exact fun m hm => ih2 m (nodeMemB_add_node_mono hm)
    · intro h hs
      rcases List.mem_cons.mp hs with rfl | h1
      · exact ih2 h.name (nodeMemB_add_node_self g h.name _)
      · exact ih3 h h1

theorem build_complete_graph_types (pt : ParsedTopo)
    (hd : ∀ x ∈ pt.hosts.map HostRec.name, x ∉ pt.switches.map SwitchRec.name) :
    NodesP pt (build_complete_graph pt) := by
  obtain ⟨p1P, _, p1self⟩ := phase1_spec pt pt.switches { nodes := [], edges := [] }
    (fun p hp => absurd hp (List.not_mem_nil p))
    (fun s hs => List.mem_map.mpr ⟨s, hs, rfl⟩)
  obtain ⟨p2P, p2mono, p2self⟩ := phase2_spec pt hd pt.hosts _ p1P
    (fun h hs => List.mem_map.mpr ⟨h, hs, rfl⟩)
  have hknown : ∀ m,
      (m ∈ pt.switches.map SwitchRec.name ∨ m ∈ pt.hosts.map HostRec.name) →
      nodeMemB (pt.hosts.foldl (fun g h =>
        add_node g h.name [("type", .str "host"), ("ip", .str h.ip)])
        (pt.switches.foldl (fun g sw =>
          add_node g sw.name [("type", .str "switch"), ("dpid", .str sw.dpid)])
          { nodes := [], edges := [] })) m = true := by
    intro m hm
    rcases hm with h1 | h1
    · rcases List.mem_map.mp h1 with ⟨s, hs, rfl⟩
      exact p2mono s.name (p1self s hs)
    · rcases List.mem_map.mp h1 with ⟨h, hh, rfl⟩
      exact p2self h hh
  exact phase3_spec pt pt.links _ p2P hknown

/-- C9, amended: every node of the built topology that was seen as the
first token of its own line is classified by the name-prefix convention
(`'s'` → switch, `'h'` → host); a node observed only as the peer inside a
link token is added to the graph without attributes and `get_topology_data`
reports it with the type `"unknown"`. -/
theorem node_type_follows_name_convention (text : String) (v : TopoNodeView)
    (hv : v ∈ (get_topology_data (extract_topology_attempt initTopologyGraph text).2).1) :
    v.type = expectedType (parse_net_output text) v.id := by
  simp only [extract_topology_attempt] at hv
  split at hv
  · unfold get_topology_data at hv
    rcases List.mem_map.mp hv with ⟨p, hp, hpe⟩
    have hdisj : ∀ x ∈ (parse_net_output text).hosts.map HostRec.name,
        x ∉ (parse_net_output text).switches.map SwitchRec.name := by
      intro x hx hc
      rw [host_names_eq] at hx
      rw [switch_names_eq] at hc
      obtain ⟨hsw, hhs⟩ := parse_name_sets_spec (pyLines text) ([], [], [])
        (fun y hy => absurd hy (List.not_mem_nil y))
        (fun y hy => absurd hy (List.not_mem_nil y))
      have h1 : pyStartsWith x "h" = true := hhs x ((mem_sortStrings _).mp hx)
      have h2 : pyStartsWith x "s" = true := hsw x ((mem_sortStrings _).mp hc)
      rw [not_h_of_s h2] at h1
      cases h1
    have hP := build_complete_graph_types (parse_net_output text) hdisj p hp
    rw [← hpe]
    exact hP
  · simp [get_topology_data, initTopologyGraph] at hv

/-- C9 witness: in the scenario dump every node line is present, so `s1` is
reported as a switch and `h1`, `h2` as hosts. -/
theorem node_classification_witness :
    (⟨"s1", "switch", ""⟩ : TopoNodeView).type =
      expectedType (parse_net_output scenarioDump) "s1" ∧
    (⟨"h1", "host", "10.0.0.1/24"⟩ : TopoNodeView).type =
      expectedType (parse_net_output scenarioDump) "h1" :=
  ⟨node_type_follows_name_convention scenarioDump ⟨"s1", "switch", ""⟩ (by decide),
   node_type_follows_name_convention scenarioDump ⟨"h1", "host", "10.0.0.1/24"⟩ (by decide)⟩

end Mntpp
